import Mathlib

/-!
# Verification of the IPQS flat-file database reader

A shallow embedding of the `ipqs_db_reader` crate (files `src/lib.rs`,
`src/parse.rs`, `src/binary_option.rs`, `src/column.rs`,
`src/file_reader.rs`, `src/file_reader/record.rs`,
`src/file_reader/variable_length_int.rs`, `src/memory_reader.rs`,
`src/memory_reader/record.rs`).

Modelling conventions:
* Bytes are `Nat` values in `0..256`; a file is a `List Nat`.
* Rust machine arithmetic is modelled on `Nat` with explicit `% 2 ^ w`
  where overflow matters.  Shift amounts follow release-build semantics:
  `a << b` masks the shift amount by the bit width (`b % 128` on `u128`).
* Fallible Rust code returns `Except RErr`.  A Rust panic (slice index
  out of bounds, `split_at` past the end, lookup of an absent map key) is
  modelled by the distinguished error `RErr.panicE`, which is not a value
  the Rust function could ever return.
* `f32` values are kept as their 4-byte little-endian bit patterns
  (a `Nat` below `2 ^ 32`); the reader never computes with floats, it only
  transports them.
* Strings are kept as their UTF-8 byte lists; `&str`/`String` equality is
  byte-list equality.
-/

set_option maxHeartbeats 1000000
set_option maxRecDepth 100000

/-- Error outcomes of the reader, by stable error id (EID) where the crate
assigns one.  `panicE` models a Rust panic, `ioEof` an `UnexpectedEof`
from `read_exact`, `badUtf8` a `str::from_utf8`/`String::from_utf8`
failure, `wrongFam4`/`wrongFam6` the two address-family mismatch errors,
and `varintTooLong`/`varintOverflow` the two `uvarint64` failures. -/
inductive RErr where
  | eid1 | eid2 | eid3 | eid4 | eid5 | eid6 | eid7 | eid8 | eid9 | eid10
  | eid13
  | varintTooLong | varintOverflow
  | badUtf8
  | wrongFam4 | wrongFam6
  | ioEof
  | panicE
  deriving DecidableEq

instance {ε α : Type} [DecidableEq ε] [DecidableEq α] : DecidableEq (Except ε α) :=
  fun x y =>
    match x, y with
    | .ok a, .ok b =>
      if h : a = b then .isTrue (by rw [h])
      else .isFalse (by intro hc; cases hc; exact h rfl)
    | .error a, .error b =>
      if h : a = b then .isTrue (by rw [h])
      else .isFalse (by intro hc; cases hc; exact h rfl)
    | .ok _, .error _ => .isFalse (by intro hc; cases hc)
    | .error _, .ok _ => .isFalse (by intro hc; cases hc)

/-- `utility::four_byte_int`: little-endian `u32` from four bytes. -/
def fourByteInt (l : List Nat) : Nat :=
  l.getD 0 0 + l.getD 1 0 * 256 + l.getD 2 0 * 65536 + l.getD 3 0 * 16777216

/-- `&d[i..i+n]`: `some` slice when in bounds, `none` models the Rust
slice-index panic. -/
def listSlice (d : List Nat) (i n : Nat) : Option (List Nat) :=
  if i + n ≤ d.length then some ((d.drop i).take n) else none

/-- `BinaryOption::has`: test a bit mask. -/
def hasFlag (data flagv : Nat) : Bool := data &&& flagv != 0

/-- Flag constants from `binary_option.rs`. -/
def treeData : Nat := 0x04
def stringData : Nat := 0x08
def smallIntData : Nat := 0x10
def intData : Nat := 0x20
def floatData : Nat := 0x40

def ipv4Map : Nat := 0x01
def ipv6Map : Nat := 0x02
def blacklistFile : Nat := 0x04
def binaryDataFlag : Nat := 0x80

/-- Loop body of `uvarint64`: `i` is the byte index, `x` the accumulator,
`s` the shift; all `u64` arithmetic is reduced `% 2 ^ 64`. -/
def uvarintGo : List Nat → Nat → Nat → Nat → Except RErr Nat
  | [], _, x, _ => .ok x
  | b :: rest, i, x, s =>
    if b < 0x80 then
      if i = 9 ∧ 1 < b then .error .varintOverflow
      else .ok ((x ||| (b <<< s)) % 2 ^ 64)
    else uvarintGo rest (i + 1) ((x ||| ((b &&& 0x7f) <<< s)) % 2 ^ 64) (s + 7)

/-- `variable_length_int::uvarint64`. -/
def uvarint64 (bytes : List Nat) : Except RErr Nat :=
  if 10 < bytes.length then .error .varintTooLong
  else uvarintGo bytes 0 0 0

/-- Result of `FileHeader::parse` (`parse.rs`); `file_reader.rs` inlines a
verbatim copy of the same code. -/
structure FileHeader where
  binaryData : Bool
  isV6 : Bool
  isBlacklist : Bool
  treeStart : Nat
  columnsBytesLength : Nat
  recordBytesLength : Nat
  deriving DecidableEq

/-- `FileHeader::parse` on the 11 header bytes.  `header_size - 11` is a
`usize` subtraction, modelled with release-build wrapping. -/
def parseFileHeader (header : List Nat) : Except RErr FileHeader :=
  let b0 := header.getD 0 0
  let binaryData := hasFlag b0 binaryDataFlag
  let isV6 := hasFlag b0 ipv6Map
  if isV6 = hasFlag b0 ipv4Map then .error .eid1
  else if header.getD 1 0 ≠ 1 then .error .eid2
  else
    match uvarint64 ((header.drop 2).take 3) with
    | .error e => .error e
    | .ok treeStart =>
      if treeStart = 0 then .error .eid3
      else
        let columnBytesLength := (treeStart + 2 ^ 64 - 11) % 2 ^ 64
        if columnBytesLength = 0 then .error .eid4
        else if columnBytesLength % 24 ≠ 0 then .error .eid5
        else
          match uvarint64 ((header.drop 5).take 2) with
          | .error e => .error e
          | .ok recordBytes =>
            if recordBytes = 0 then .error .eid6
            else .ok ⟨binaryData, isV6, hasFlag b0 blacklistFile, treeStart,
                      columnBytesLength, recordBytes⟩

/-- A column descriptor: stripped name bytes plus the record-type flag
byte (`column.rs`, the `value` field is never read by the reader). -/
structure Column where
  name : List Nat
  recordType : Nat
  deriving DecidableEq

/-- `trim_end_matches(char::from(0x00))` on the 23 name bytes. -/
def stripTrailingZeros (l : List Nat) : List Nat :=
  (l.reverse.dropWhile (· = 0)).reverse

/-- UTF-8 validity of a byte list, the exact check of `str::from_utf8`. -/
def validUtf8 : List Nat → Bool
  | [] => true
  | b :: rest =>
    if b < 0x80 then validUtf8 rest
    else if b < 0xC2 then false
    else if b ≤ 0xDF then
      match rest with
      | c1 :: rest' => 0x80 ≤ c1 && c1 ≤ 0xBF && validUtf8 rest'
      | [] => false
    else if b ≤ 0xEF then
      match rest with
      | c1 :: c2 :: rest' =>
        let lo := if b = 0xE0 then 0xA0 else 0x80
        let hi := if b = 0xED then 0x9F else 0xBF
        lo ≤ c1 && c1 ≤ hi && 0x80 ≤ c2 && c2 ≤ 0xBF && validUtf8 rest'
      | _ => false
    else if b ≤ 0xF4 then
      match rest with
      | c1 :: c2 :: c3 :: rest' =>
        let lo := if b = 0xF0 then 0x90 else 0x80
        let hi := if b = 0xF4 then 0x8F else 0xBF
        lo ≤ c1 && c1 ≤ hi && 0x80 ≤ c2 && c2 ≤ 0xBF &&
          0x80 ≤ c3 && c3 ≤ 0xBF && validUtf8 rest'
      | _ => false
    else false

/-- The column-descriptor loop of `ColumnsBlock::parse` (and the verbatim
copy inside `FileReader::from_reader`): `n` descriptors of 24 bytes, the
first 23 a NUL-padded UTF-8 name, the 24th the record-type byte. -/
def parseColumnsN : Nat → List Nat → Except RErr (List Column)
  | 0, _ => .ok []
  | n + 1, bytes =>
    if validUtf8 (bytes.take 23) then
      match parseColumnsN n (bytes.drop 24) with
      | .error e => .error e
      | .ok rest => .ok (⟨stripTrailingZeros (bytes.take 23), bytes.getD 23 0⟩ :: rest)
    else .error .badUtf8

/-- `parse::NodeResult`. -/
inductive NodeResult where
  | missing
  | nextNode (n : Nat)
  | record (n : Nat)
  deriving DecidableEq

/-- `parse::next_node`: select a child pointer by the address bit and
classify it against the tree bounds. -/
def nextNode (bit : Bool) (node : List Nat) (treeStart treeEnd : Nat) : NodeResult :=
  let value := if bit then fourByteInt ((node.drop 4).take 4)
               else fourByteInt (node.take 4)
  if value < treeStart then .missing
  else if treeEnd ≤ value then .record value
  else .nextNode value

/-- The raw child pointer `next_node` would classify (used to state
side conditions about walks). -/
def childValue (bit : Bool) (node : List Nat) : Nat :=
  if bit then fourByteInt ((node.drop 4).take 4) else fourByteInt (node.take 4)

/-- `u128::MAX`. -/
def u128Max : Nat := 2 ^ 128 - 1

/-- Trailing-zero count with explicit fuel (`u128::trailing_zeros` is
only applied to nonzero values below `2 ^ 128`, for which 128 steps
suffice). -/
def ctzGo : Nat → Nat → Nat
  | 0, _ => 0
  | fuel + 1, n => if n % 2 = 1 then 0 else ctzGo fuel (n / 2) + 1

def ctz128 (n : Nat) : Nat := ctzGo 128 n

/-- `memory_reader::AddressBits`: a `u128` holding the address value and
the bit length of the address (32 or 128). -/
structure AddressBits where
  bits : Nat
  len : Nat
  deriving DecidableEq

/-- `AddressBits::bit`: mask with a single bit, position 0 = MSB. -/
def AddressBits.bitMask (a : AddressBits) (index : Nat) : Nat :=
  1 <<< (a.len - index - 1)

/-- `AddressBits::position`. -/
def AddressBits.position (a : AddressBits) (index : Nat) : Bool :=
  a.bits &&& a.bitMask index != 0

/-- `AddressBits::set_branch`.  `u128::MAX << (self.1 - index)` masks the
shift amount in release builds, hence the `% 128`; for `len = 128` and
`index = 0` this keeps the whole word (debug builds panic there). -/
def AddressBits.setBranch (a : AddressBits) (index : Nat) : AddressBits :=
  let bit := a.bitMask index
  let tail := bit - 1
  let mask := (u128Max <<< ((a.len - index) % 128)) % 2 ^ 128
  ⟨(a.bits &&& mask) ||| tail, a.len⟩

/-- `AddressBits::find_previous_one`: nearest set bit at or before
`index` (`none` when all those bits are clear). -/
def AddressBits.findPreviousOne (a : AddressBits) (index : Nat) : Option Nat :=
  let mask := (u128Max <<< (a.len - 1 - index)) % 2 ^ 128
  let masked := a.bits &&& mask
  if masked = 0 then none else some (a.len - 1 - ctz128 masked)

/-- `AddressBits::try_backtrack`, returning the new bit index together
with the updated bits. -/
def AddressBits.tryBacktrack (a : AddressBits) (index : Nat) :
    Option (Nat × AddressBits) :=
  match a.findPreviousOne index with
  | none => none
  | some k => some (k, a.setBranch k)

/-- An IP address: family plus numeric value (`u32` resp. `u128`,
big-endian octets). -/
structure IpAddress where
  isIpv6 : Bool
  bits : Nat
  deriving DecidableEq

def IpAddress.len (ip : IpAddress) : Nat := if ip.isIpv6 then 128 else 32

/-- `AddressBits::from(IpAddr)`. -/
def addressBitsOf (ip : IpAddress) : AddressBits := ⟨ip.bits, ip.len⟩

/-- ASCII byte lists of the recognized column names. -/
def nameASN : List Nat := [65, 83, 78]
def nameLatitude : List Nat := [76, 97, 116, 105, 116, 117, 100, 101]
def nameLongitude : List Nat := [76, 111, 110, 103, 105, 116, 117, 100, 101]
def nameZeroFraudScore : List Nat :=
  [90, 101, 114, 111, 70, 114, 97, 117, 100, 83, 99, 111, 114, 101]
def nameOneFraudScore : List Nat :=
  [79, 110, 101, 70, 114, 97, 117, 100, 83, 99, 111, 114, 101]
def nameTwoFraudScore : List Nat :=
  [84, 119, 111, 70, 114, 97, 117, 100, 83, 99, 111, 114, 101]
def nameThreeFraudScore : List Nat :=
  [84, 104, 114, 101, 101, 70, 114, 97, 117, 100, 83, 99, 111, 114, 101]
def nameCountry : List Nat := [67, 111, 117, 110, 116, 114, 121]
def nameCity : List Nat := [67, 105, 116, 121]
def nameRegion : List Nat := [82, 101, 103, 105, 111, 110]
def nameISP : List Nat := [73, 83, 80]
def nameOrganization : List Nat :=
  [79, 114, 103, 97, 110, 105, 122, 97, 116, 105, 111, 110]
def nameTimezone : List Nat := [84, 105, 109, 101, 122, 111, 110, 101]

/-- `memory_reader::Columns`: byte offset of each recognized column
within a leaf record (the source keeps the four fraud scores in an
array; four fields are used here). -/
structure Columns where
  asn : Option Nat := none
  latitude : Option Nat := none
  longitude : Option Nat := none
  fraudScore0 : Option Nat := none
  fraudScore1 : Option Nat := none
  fraudScore2 : Option Nat := none
  fraudScore3 : Option Nat := none
  country : Option Nat := none
  city : Option Nat := none
  region : Option Nat := none
  isp : Option Nat := none
  organization : Option Nat := none
  timezone : Option Nat := none
  deriving DecidableEq

/-- `memory_reader::column_size`: 4 bytes for string/int/float columns,
1 byte otherwise. -/
def columnSize (c : Column) : Nat :=
  if hasFlag c.recordType stringData || hasFlag c.recordType intData ||
     hasFlag c.recordType floatData then 4 else 1

/-- One iteration of the `Columns::new` loop: record the offset under the
recognized name, ignore unknown names. -/
def Columns.insertCol (acc : Columns) (name : List Nat) (off : Nat) : Columns :=
  if name = nameASN then { acc with asn := some off }
  else if name = nameLatitude then { acc with latitude := some off }
  else if name = nameLongitude then { acc with longitude := some off }
  else if name = nameZeroFraudScore then { acc with fraudScore0 := some off }
  else if name = nameOneFraudScore then { acc with fraudScore1 := some off }
  else if name = nameTwoFraudScore then { acc with fraudScore2 := some off }
  else if name = nameThreeFraudScore then { acc with fraudScore3 := some off }
  else if name = nameCountry then { acc with country := some off }
  else if name = nameCity then { acc with city := some off }
  else if name = nameRegion then { acc with region := some off }
  else if name = nameISP then { acc with isp := some off }
  else if name = nameOrganization then { acc with organization := some off }
  else if name = nameTimezone then { acc with timezone := some off }
  else acc

/-- The `Columns::new` loop over the declared columns, carrying the
running record offset. -/
def Columns.build : List Column → Nat → Columns → Columns
  | [], _, acc => acc
  | c :: rest, off, acc =>
    Columns.build rest (off + columnSize c) (acc.insertCol c.name off)

/-- `Columns::new`: the cursor starts at 3 with the two binary-data bytes
plus the common byte, else at 1. -/
def Columns.new (binaryData : Bool) (cols : List Column) : Columns :=
  Columns.build cols (if binaryData then 3 else 1) {}

/-- `memory_reader::MemoryReader` (the byte container is the concrete
list). -/
structure MemReader where
  data : List Nat
  binaryData : Bool
  isV6 : Bool
  isBlacklist : Bool
  treeBlockStart : Nat
  treeBlockEnd : Nat
  columns : Columns
  deriving DecidableEq

/-- `TreeHeader::parse` as invoked by `MemoryReader::from_bytes`: the
argument is the whole remaining tail, indexing panics model slice
panics on a too-short tail. -/
def memParseTreeHeader (treeStart : Nat) (t : List Nat) : Except RErr Nat :=
  match t with
  | [] => .error .panicE
  | b0 :: _ =>
    if ¬ hasFlag b0 treeData then .error .eid7
    else if t.length < 5 then .error .panicE
    else
      let total := fourByteInt ((t.drop 1).take 4)
      if total = 0 then .error .eid8
      else .ok (treeStart + total)

/-- `MemoryReader::from_bytes`.  `split_at` past the end of the slice is
a panic. -/
def memFromBytes (data : List Nat) : Except RErr MemReader :=
  if data.length < 11 then .error .panicE
  else
    match parseFileHeader (data.take 11) with
    | .error e => .error e
    | .ok fh =>
      let tail := data.drop 11
      if tail.length < fh.columnsBytesLength then .error .panicE
      else
        match parseColumnsN (fh.columnsBytesLength / 24) (tail.take fh.columnsBytesLength) with
        | .error e => .error e
        | .ok cols =>
          match memParseTreeHeader fh.treeStart (tail.drop fh.columnsBytesLength) with
          | .error e => .error e
          | .ok treeEnd =>
            .ok ⟨data, fh.binaryData, fh.isV6, fh.isBlacklist, fh.treeStart,
                 treeEnd, Columns.new fh.binaryData cols⟩

/-- State of the `MemoryReader::fetch` loop: bit position, node offset,
mutable address bits, and the `previous` array (`[0u64; 128]`). -/
structure MState where
  pos : Nat
  node : Nat
  addr : AddressBits
  prev : Nat → Nat

/-- The `for _ in 0..257` loop of `MemoryReader::fetch`, by fuel.
Writing `previous[bit_position]` with `bit_position ≥ 128` panics, and
the write precedes the address-exhaustion check.  Success returns the
leaf offset (`memory_reader::Record::parse` just stores reader and
offset). -/
def memWalk (r : MemReader) : Nat → MState → Except RErr Nat
  | 0, _ => .error .eid10
  | fuel + 1, s =>
    if 128 ≤ s.pos then .error .panicE
    else
      let prev' := fun i => if i = s.pos then s.node else s.prev i
      if s.addr.len ≤ s.pos then .error .eid9
      else
        match listSlice r.data s.node 8 with
        | none => .error .panicE
        | some nodeBytes =>
          match nextNode (s.addr.position s.pos) nodeBytes r.treeBlockStart r.treeBlockEnd with
          | .missing =>
            if r.isBlacklist then .error .eid10
            else
              match s.addr.tryBacktrack s.pos with
              | none => memWalk r fuel ⟨s.pos, s.node, s.addr, prev'⟩
              | some (k, a') => memWalk r fuel ⟨k, prev' k, a', prev'⟩
          | .nextNode n => memWalk r fuel ⟨s.pos + 1, n, s.addr, prev'⟩
          | .record p => .ok p

/-- Initial walker state of a fetch. -/
def initMState (r : MemReader) (ip : IpAddress) : MState :=
  ⟨0, r.treeBlockStart + 5, addressBitsOf ip, fun _ => 0⟩

/-- `MemoryReader::fetch`; the result is the leaf offset of the record
handle. -/
def memFetch (r : MemReader) (ip : IpAddress) : Except RErr Nat :=
  if r.isV6 && !ip.isIpv6 then .error .wrongFam4
  else if !r.isV6 && ip.isIpv6 then .error .wrongFam6
  else memWalk r 257 (initMState r ip)

/-- `MemoryReader::get_ranged_string_value` followed by
`utility::parse_string`: read the `u32` string-pool offset at `offset`,
then a length byte and that many content bytes, validated as UTF-8.
Out-of-bounds accesses are slice panics. -/
def getRangedStringE (r : MemReader) (offset : Nat) : Except RErr (List Nat) :=
  match listSlice r.data offset 4 with
  | none => .error .panicE
  | some ob =>
    let so := fourByteInt ob
    let tl := r.data.drop so
    if tl.length = 0 then .error .panicE
    else
      let size := tl.getD 0 0
      if tl.length < 1 + size then .error .panicE
      else
        let content := (tl.drop 1).take size
        if validUtf8 content then .ok content else .error .badUtf8

/-- All record accessors of §6 in one structure: the `Option Bool`
flags, the two always-present strings, the column-dependent strings as
byte lists, `asn`, the two `f32` bit patterns, and the four fraud
scores.  `file_reader::record::Record` stores exactly these fields;
`memory_reader::record::Record` computes them lazily. -/
structure RecordView where
  isProxy : Option Bool := none
  isVpn : Option Bool := none
  isTor : Option Bool := none
  isCrawler : Option Bool := none
  isBot : Option Bool := none
  recentAbuse : Option Bool := none
  isBlacklisted : Option Bool := none
  isPrivate : Option Bool := none
  isMobile : Option Bool := none
  hasOpenPorts : Option Bool := none
  isHostingProvider : Option Bool := none
  activeVpn : Option Bool := none
  activeTor : Option Bool := none
  publicAccessPoint : Option Bool := none
  connectionType : String := ""
  abuseVelocity : String := ""
  country : Option (List Nat) := none
  city : Option (List Nat) := none
  region : Option (List Nat) := none
  isp : Option (List Nat) := none
  organization : Option (List Nat) := none
  timezone : Option (List Nat) := none
  asn : Option Nat := none
  latitude : Option Nat := none
  longitude : Option Nat := none
  fraudScore0 : Option Nat := none
  fraudScore1 : Option Nat := none
  fraudScore2 : Option Nat := none
  fraudScore3 : Option Nat := none
  deriving DecidableEq

/-- `file_reader::record::connection_type` (also used by the memory
record). -/
def connectionTypeStr (byte : Nat) : String :=
  match byte &&& 0x38 with
  | 0x20 => "Residential"
  | 0x10 => "Mobile"
  | 0x30 => "Corporate"
  | 0x08 => "Data Center"
  | 0x28 => "Education"
  | _ => "Unknown"

/-- `file_reader::record::abuse_velocity`. -/
def abuseVelocityStr (byte : Nat) : String :=
  match byte &&& 0xC0 with
  | 0x80 => "low"
  | 0x40 => "medium"
  | 0xC0 => "high"
  | _ => "none"

/-- Set the fourteen boolean accessors from the two binary-data bytes
(bit masks from `binary_option.rs`). -/
def applyBools (v : RecordView) (b1 b2 : Nat) : RecordView :=
  { v with
    isProxy := some (hasFlag b1 0x01), isVpn := some (hasFlag b1 0x02),
    isTor := some (hasFlag b1 0x04), isCrawler := some (hasFlag b1 0x08),
    isBot := some (hasFlag b1 0x10), recentAbuse := some (hasFlag b1 0x20),
    isBlacklisted := some (hasFlag b1 0x40), isPrivate := some (hasFlag b1 0x80),
    isMobile := some (hasFlag b2 0x01), hasOpenPorts := some (hasFlag b2 0x02),
    isHostingProvider := some (hasFlag b2 0x04), activeVpn := some (hasFlag b2 0x08),
    activeTor := some (hasFlag b2 0x10), publicAccessPoint := some (hasFlag b2 0x20) }

/-- `memory_reader::record::Record::string_column`: `.ok()` turns a
decode error into `None` (a panic inside the read would still abort;
within the in-bounds regimes considered below the distinction does not
arise and it is conflated into `none` here). -/
def memStringColumn (r : MemReader) (off : Nat) (col : Option Nat) :
    Option (List Nat) :=
  match col with
  | none => none
  | some c =>
    match getRangedStringE r (off + c) with
    | .ok s => some s
    | .error _ => none

/-- `Record::int_column` via `get_int_value` (4 little-endian bytes). -/
def memIntColumn (r : MemReader) (off : Nat) (col : Option Nat) : Option Nat :=
  col.map fun c => fourByteInt ((r.data.drop (off + c)).take 4)

/-- `Record::float_column` via `get_float_value`, kept as the 4-byte
bit pattern. -/
def memFloatColumn (r : MemReader) (off : Nat) (col : Option Nat) : Option Nat :=
  col.map fun c => fourByteInt ((r.data.drop (off + c)).take 4)

/-- `fraud_score` via `get_small_int_value` (one byte). -/
def memSmallIntColumn (r : MemReader) (off : Nat) (col : Option Nat) : Option Nat :=
  col.map fun c => r.data.getD (off + c) 0

/-- All lazy accessors of `memory_reader::record::Record` evaluated at a
leaf offset, generalized over the column index. -/
def memViewWith (r : MemReader) (off : Nat) (cols : Columns) : RecordView :=
  let base : RecordView :=
    if r.binaryData then applyBools {} (r.data.getD off 0) (r.data.getD (off + 1) 0)
    else {}
  let common := r.data.getD (off + (if r.binaryData then 2 else 0)) 0
  { base with
    connectionType := connectionTypeStr common
    abuseVelocity := abuseVelocityStr common
    country := memStringColumn r off cols.country
    city := memStringColumn r off cols.city
    region := memStringColumn r off cols.region
    isp := memStringColumn r off cols.isp
    organization := memStringColumn r off cols.organization
    timezone := memStringColumn r off cols.timezone
    asn := memIntColumn r off cols.asn
    latitude := memFloatColumn r off cols.latitude
    longitude := memFloatColumn r off cols.longitude
    fraudScore0 := memSmallIntColumn r off cols.fraudScore0
    fraudScore1 := memSmallIntColumn r off cols.fraudScore1
    fraudScore2 := memSmallIntColumn r off cols.fraudScore2
    fraudScore3 := memSmallIntColumn r off cols.fraudScore3 }

/-- The accessors of a fetched memory record. -/
def memView (r : MemReader) (off : Nat) : RecordView :=
  memViewWith r off r.columns

/-- `file_reader::FileReader` (over a `Cursor` of bytes). -/
structure FReader where
  data : List Nat
  recordBytes : Nat
  treeStart : Nat
  treeEnd : Nat
  isV6 : Bool
  binaryData : Bool
  columns : List Column
  isBlacklist : Bool
  deriving DecidableEq

/-- `FileReader::from_reader` on a byte cursor (`from_bytes`): the same
validation sequence as the memory facade, but every short read is an
`UnexpectedEof` I/O error instead of a slice panic. -/
def fileFromBytes (data : List Nat) : Except RErr FReader :=
  if data.length < 11 then .error .ioEof
  else
    match parseFileHeader (data.take 11) with
    | .error e => .error e
    | .ok fh =>
      if data.length < 11 + fh.columnsBytesLength then .error .ioEof
      else
        match parseColumnsN (fh.columnsBytesLength / 24)
            ((data.drop 11).take fh.columnsBytesLength) with
        | .error e => .error e
        | .ok cols =>
          let p := 11 + fh.columnsBytesLength
          if data.length < p + 5 then .error .ioEof
          else
            let th := (data.drop p).take 5
            if ¬ hasFlag (th.getD 0 0) treeData then .error .eid7
            else
              let total := fourByteInt ((th.drop 1).take 4)
              if total = 0 then .error .eid8
              else .ok ⟨data, fh.recordBytesLength, fh.treeStart,
                        fh.treeStart + total, fh.isV6, fh.binaryData, cols,
                        fh.isBlacklist⟩

/-- The `binary_representation` bit vector built from the address
octets, most significant bit first. -/
def binaryRepresentation (ip : IpAddress) : List Bool :=
  (List.range ip.len).map fun i => ip.bits.testBit (ip.len - 1 - i)

/-- `FileReader::get_ranged_string_value`: seek to the pool offset, read
a length byte and that many bytes, convert with `String::from_utf8`. -/
def fileGetRangedString (data : List Nat) (offset : Nat) : Except RErr (List Nat) :=
  if data.length ≤ offset then .error .ioEof
  else
    let size := data.getD offset 0
    if data.length < offset + 1 + size then .error .ioEof
    else
      let content := (data.drop (offset + 1)).take size
      if validUtf8 content then .ok content else .error .badUtf8

/-- The inner `match column.name.as_str()` of the catch-all arm of
`file_reader::record::Record::parse`: assign a string value to one of
the six string fields, any other name is the EID 13 error. -/
def assignStringField (v : RecordView) (name : List Nat) (sv : List Nat) :
    Except RErr RecordView :=
  if name = nameCountry then .ok { v with country := some sv }
  else if name = nameCity then .ok { v with city := some sv }
  else if name = nameRegion then .ok { v with region := some sv }
  else if name = nameISP then .ok { v with isp := some sv }
  else if name = nameOrganization then .ok { v with organization := some sv }
  else if name = nameTimezone then .ok { v with timezone := some sv }
  else .error .eid13

/-- The column loop of `file_reader::record::Record::parse`: decode each
declared column from the raw record bytes at the running cursor. -/
def fileParseColumns (data : List Nat) (raw : List Nat) :
    List Column → Nat → RecordView → Except RErr RecordView
  | [], _, v => .ok v
  | c :: rest, cur, v =>
    if c.name = nameASN then
      match listSlice raw cur 4 with
      | none => .error .panicE
      | some b =>
        fileParseColumns data raw rest (cur + 4) { v with asn := some (fourByteInt b) }
    else if c.name = nameLatitude then
      match listSlice raw cur 4 with
      | none => .error .panicE
      | some b =>
        fileParseColumns data raw rest (cur + 4) { v with latitude := some (fourByteInt b) }
    else if c.name = nameLongitude then
      match listSlice raw cur 4 with
      | none => .error .panicE
      | some b =>
        fileParseColumns data raw rest (cur + 4) { v with longitude := some (fourByteInt b) }
    else if c.name = nameZeroFraudScore then
      if raw.length ≤ cur then .error .panicE
      else fileParseColumns data raw rest (cur + 1) { v with fraudScore0 := some (raw.getD cur 0) }
    else if c.name = nameOneFraudScore then
      if raw.length ≤ cur then .error .panicE
      else fileParseColumns data raw rest (cur + 1) { v with fraudScore1 := some (raw.getD cur 0) }
    else if c.name = nameTwoFraudScore then
      if raw.length ≤ cur then .error .panicE
      else fileParseColumns data raw rest (cur + 1) { v with fraudScore2 := some (raw.getD cur 0) }
    else if c.name = nameThreeFraudScore then
      if raw.length ≤ cur then .error .panicE
      else fileParseColumns data raw rest (cur + 1) { v with fraudScore3 := some (raw.getD cur 0) }
    else
      if hasFlag c.recordType stringData then
        match listSlice raw cur 4 with
        | none => .error .panicE
        | some b =>
          match fileGetRangedString data (fourByteInt b) with
          | .error e => .error e
          | .ok sv =>
            match assignStringField v c.name sv with
            | .error e => .error e
            | .ok v' => fileParseColumns data raw rest (cur + 4) v'
      else
        match assignStringField v c.name [] with
        | .error e => .error e
        | .ok v' => fileParseColumns data raw rest cur v'

/-- `file_reader::record::Record::parse` on the raw leaf bytes. -/
def fileRecordParse (f : FReader) (raw : List Nat) : Except RErr RecordView :=
  if f.binaryData ∧ raw.length < 2 then .error .panicE
  else
    let base : RecordView :=
      if f.binaryData then applyBools {} (raw.getD 0 0) (raw.getD 1 0) else {}
    let cur0 := if f.binaryData then 2 else 0
    if raw.length ≤ cur0 then .error .panicE
    else
      let common := raw.getD cur0 0
      fileParseColumns f.data raw f.columns (cur0 + 1)
        { base with
          connectionType := connectionTypeStr common
          abuseVelocity := abuseVelocityStr common }

/-- State of the `FileReader::fetch` loop: bit position, file position,
the mutable `binary_representation` vector, and the `previous`
hash map. -/
structure FState where
  pos : Nat
  fpos : Nat
  bin : List Bool
  prev : Nat → Option Nat

/-- The backtracking scan of `FileReader::fetch`
(`for i in 0..position + 1 { if binary_representation[position - i] ... }`):
nearest index at or below the argument whose bit is set. -/
def findSetDown (bin : List Bool) : Nat → Option Nat
  | 0 => if bin.getD 0 false then some 0 else none
  | k + 1 => if bin.getD (k + 1) false then some (k + 1) else findSetDown bin k

/-- The in-place bit update of the fallback: clear bit `k`, set every
later bit to the end of the vector. -/
def fallbackBits (bin : List Bool) (k : Nat) : List Bool :=
  bin.mapIdx fun i b => if i = k then false else if k < i then true else b

/-- The `for _ in 0..257` loop of `FileReader::fetch`, by fuel.  The
child pointer is compared with 0 (hole) and `tree_end` only; a nonzero
pointer below `tree_start` is followed like an internal node.  On a
failed backtrack the file position stays 0.  The dead-looking
`if file_position == 0 break` fires for blacklist files and produces
the trailing EID 10 error. -/
def fileWalk (f : FReader) : Nat → FState → Except RErr RecordView
  | 0, _ => .error .eid10
  | fuel + 1, s =>
    let prev' := fun i => if i = s.pos then some s.fpos else s.prev i
    if s.bin.length ≤ s.pos then .error .eid9
    else
      match listSlice f.data s.fpos 8 with
      | none => .error .ioEof
      | some node =>
        let fp := childValue (s.bin.getD s.pos false) node
        if !f.isBlacklist && fp = 0 then
          match findSetDown s.bin s.pos with
          | some k =>
            match prev' k with
            | some np => fileWalk f fuel ⟨k, np, fallbackBits s.bin k, prev'⟩
            | none => .error .panicE
          | none => fileWalk f fuel ⟨s.pos, 0, s.bin, prev'⟩
        else if fp < f.treeEnd then
          if fp = 0 then .error .eid10
          else fileWalk f fuel ⟨s.pos + 1, fp, s.bin, prev'⟩
        else
          match listSlice f.data fp f.recordBytes with
          | none => .error .ioEof
          | some raw => fileRecordParse f raw

/-- Initial walker state of a file fetch. -/
def initFState (f : FReader) (ip : IpAddress) : FState :=
  ⟨0, f.treeStart + 5, binaryRepresentation ip, fun _ => none⟩

/-- `FileReader::fetch`. -/
def fileFetch (f : FReader) (ip : IpAddress) : Except RErr RecordView :=
  if f.isV6 && !ip.isIpv6 then .error .wrongFam4
  else if !f.isV6 && ip.isIpv6 then .error .wrongFam6
  else fileWalk f 257 (initFState f ip)

/-- The column loop of `Record::parse` together with its cursor, the
exact loop state `(record, current_byte)` of the source; `fileParseColumns`
above is its first projection.  (Defined second here so the two can be
related by a lemma.) -/
def fileParseColumnsSt (data : List Nat) (raw : List Nat) :
    List Column → Nat → RecordView → Except RErr (RecordView × Nat)
  | [], cur, v => .ok (v, cur)
  | c :: rest, cur, v =>
    if c.name = nameASN then
      match listSlice raw cur 4 with
      | none => .error .panicE
      | some b =>
        fileParseColumnsSt data raw rest (cur + 4) { v with asn := some (fourByteInt b) }
    else if c.name = nameLatitude then
      match listSlice raw cur 4 with
      | none => .error .panicE
      | some b =>
        fileParseColumnsSt data raw rest (cur + 4) { v with latitude := some (fourByteInt b) }
    else if c.name = nameLongitude then
      match listSlice raw cur 4 with
      | none => .error .panicE
      | some b =>
        fileParseColumnsSt data raw rest (cur + 4) { v with longitude := some (fourByteInt b) }
    else if c.name = nameZeroFraudScore then
      if raw.length ≤ cur then .error .panicE
      else fileParseColumnsSt data raw rest (cur + 1) { v with fraudScore0 := some (raw.getD cur 0) }
    else if c.name = nameOneFraudScore then
      if raw.length ≤ cur then .error .panicE
      else fileParseColumnsSt data raw rest (cur + 1) { v with fraudScore1 := some (raw.getD cur 0) }
    else if c.name = nameTwoFraudScore then
      if raw.length ≤ cur then .error .panicE
      else fileParseColumnsSt data raw rest (cur + 1) { v with fraudScore2 := some (raw.getD cur 0) }
    else if c.name = nameThreeFraudScore then
      if raw.length ≤ cur then .error .panicE
      else fileParseColumnsSt data raw rest (cur + 1) { v with fraudScore3 := some (raw.getD cur 0) }
    else
      if hasFlag c.recordType stringData then
        match listSlice raw cur 4 with
        | none => .error .panicE
        | some b =>
          match fileGetRangedString data (fourByteInt b) with
          | .error e => .error e
          | .ok sv =>
            match assignStringField v c.name sv with
            | .error e => .error e
            | .ok v' => fileParseColumnsSt data raw rest (cur + 4) v'
      else
        match assignStringField v c.name [] with
        | .error e => .error e
        | .ok v' => fileParseColumnsSt data raw rest cur v'

/-- `true` for the thirteen recognized column names. -/
def nameWidth (n : List Nat) : Option Nat :=
  if n = nameASN ∨ n = nameLatitude ∨ n = nameLongitude then some 4
  else if n = nameZeroFraudScore ∨ n = nameOneFraudScore ∨
          n = nameTwoFraudScore ∨ n = nameThreeFraudScore then some 1
  else if n = nameCountry ∨ n = nameCity ∨ n = nameRegion ∨ n = nameISP ∨
          n = nameOrganization ∨ n = nameTimezone then some 4
  else none

def isRecognizedName (n : List Nat) : Bool := (nameWidth n).isSome

def isStringName (n : List Nat) : Bool :=
  n = nameCountry || n = nameCity || n = nameRegion || n = nameISP ||
  n = nameOrganization || n = nameTimezone

/-- Conditions under which a string-pool read at offset `so` succeeds
identically on both facades: length byte and content in bounds, content
valid UTF-8. -/
def stringOK (d : List Nat) (so : Nat) : Bool :=
  decide (so < d.length) && decide (so + 1 + d.getD so 0 ≤ d.length) &&
  validUtf8 ((d.drop (so + 1)).take (d.getD so 0))

/-- Parity conditions for one declared column at record cursor `cur`:
recognized name, a record-type flag matching the width the streaming
parser consumes for that name, field access within the record, and a
good pool string for the six string columns. -/
def columnOK (d : List Nat) (p rb : Nat) (c : Column) (cur : Nat) : Bool :=
  match nameWidth c.name with
  | none => false
  | some w =>
    decide (columnSize c = w) && decide (cur + w ≤ rb) &&
    (if isStringName c.name then
       hasFlag c.recordType stringData &&
       stringOK d (fourByteInt ((d.drop (p + cur)).take 4))
     else true)

def columnsOK (d : List Nat) (p rb : Nat) : List Column → Nat → Bool
  | [], _ => true
  | c :: rest, cur =>
    columnOK d p rb c cur &&
    columnsOK d p rb rest (cur + (nameWidth c.name).getD 0)

/-- Parity conditions for decoding the leaf at offset `p`: record in
bounds, common byte within the record, all columns well-behaved. -/
def recordDecodeOK (r : MemReader) (rb : Nat) (cols : List Column) (p : Nat) : Bool :=
  decide (p + rb ≤ r.data.length) &&
  decide ((if r.binaryData then 2 else 0) < rb) &&
  columnsOK r.data p rb cols (1 + (if r.binaryData then 2 else 0))

/-- Run-time side conditions under which the two walkers stay in
lockstep, checked along the memory walker's own trajectory: the
`previous` array is never overrun, every node read is in bounds, every
absent child is stored as the pointer 0, every backtrack finds a set
bit (at a position other than 0 when the address is 128 bits wide,
where `set_branch` misbehaves), and a reached leaf decodes cleanly. -/
def parityWalkOK (r : MemReader) (rb : Nat) (cols : List Column) :
    Nat → MState → Bool
  | 0, _ => true
  | fuel + 1, s =>
    decide (s.pos < 128) &&
    (if s.addr.len ≤ s.pos then true
     else
       match listSlice r.data s.node 8 with
       | none => false
       | some nodeBytes =>
         let prev' := fun i => if i = s.pos then s.node else s.prev i
         match nextNode (s.addr.position s.pos) nodeBytes r.treeBlockStart r.treeBlockEnd with
         | .missing =>
           decide (childValue (s.addr.position s.pos) nodeBytes = 0) &&
           (if r.isBlacklist then true
            else
              match s.addr.tryBacktrack s.pos with
              | none => false
              | some (k, a') =>
                !(s.addr.len == 128 && k == 0) &&
                parityWalkOK r rb cols fuel ⟨k, prev' k, a', prev'⟩)
         | .nextNode n => parityWalkOK r rb cols fuel ⟨s.pos + 1, n, s.addr, prev'⟩
         | .record p => recordDecodeOK r rb cols p)

/-- Lockstep relation between the two walkers' states. -/
structure WalkRel (sM : MState) (sF : FState) : Prop where
  pos : sF.pos = sM.pos
  fpos : sF.fpos = sM.node
  len : sF.bin.length = sM.addr.len
  bits : ∀ i, i < sM.addr.len → sF.bin.getD i false = sM.addr.position i
  prevAg : ∀ i, i < sM.pos → sF.prev i = some (sM.prev i)
  lenBound : sM.addr.len ≤ 128
  lenPos : 0 < sM.addr.len
  bitsBound : sM.addr.bits < 2 ^ sM.addr.len

/-- The spec-side accumulator for the varint decoder, following the
specification's words: the low 7 bits of each byte are placed at
increasing bit positions (within the 64-bit word). -/
def uvarintAccum : List Nat → Nat → Nat
  | [], _ => 0
  | b :: rest, s => (((b &&& 0x7f) <<< s) % 2 ^ 64) ||| uvarintAccum rest (s + 7)

/-- `memWalk` instrumented with the number of node reads performed. -/
def memWalkCount (r : MemReader) : Nat → MState → (Except RErr Nat) × Nat
  | 0, _ => (.error .eid10, 0)
  | fuel + 1, s =>
    if 128 ≤ s.pos then (.error .panicE, 0)
    else
      let prev' := fun i => if i = s.pos then s.node else s.prev i
      if s.addr.len ≤ s.pos then (.error .eid9, 0)
      else
        match listSlice r.data s.node 8 with
        | none => (.error .panicE, 1)
        | some nodeBytes =>
          match nextNode (s.addr.position s.pos) nodeBytes r.treeBlockStart r.treeBlockEnd with
          | .missing =>
            if r.isBlacklist then (.error .eid10, 1)
            else
              match s.addr.tryBacktrack s.pos with
              | none =>
                let (o, c) := memWalkCount r fuel ⟨s.pos, s.node, s.addr, prev'⟩
                (o, c + 1)
              | some (k, a') =>
                let (o, c) := memWalkCount r fuel ⟨k, prev' k, a', prev'⟩
                (o, c + 1)
          | .nextNode n =>
            let (o, c) := memWalkCount r fuel ⟨s.pos + 1, n, s.addr, prev'⟩
            (o, c + 1)
          | .record p => (.ok p, 1)

/-- `fileWalk` instrumented with the number of node reads performed
(leaf-record and string-pool reads are not node reads). -/
def fileWalkCount (f : FReader) : Nat → FState → (Except RErr RecordView) × Nat
  | 0, _ => (.error .eid10, 0)
  | fuel + 1, s =>
    let prev' := fun i => if i = s.pos then some s.fpos else s.prev i
    if s.bin.length ≤ s.pos then (.error .eid9, 0)
    else
      match listSlice f.data s.fpos 8 with
      | none => (.error .ioEof, 1)
      | some node =>
        let fp := childValue (s.bin.getD s.pos false) node
        if !f.isBlacklist && fp = 0 then
          match findSetDown s.bin s.pos with
          | some k =>
            match prev' k with
            | some np =>
              let (o, c) := fileWalkCount f fuel ⟨k, np, fallbackBits s.bin k, prev'⟩
              (o, c + 1)
            | none => (.error .panicE, 1)
          | none =>
            let (o, c) := fileWalkCount f fuel ⟨s.pos, 0, s.bin, prev'⟩
            (o, c + 1)
        else if fp < f.treeEnd then
          if fp = 0 then (.error .eid10, 1)
          else
            let (o, c) := fileWalkCount f fuel ⟨s.pos + 1, fp, s.bin, prev'⟩
            (o, c + 1)
        else
          match listSlice f.data fp f.recordBytes with
          | none => (.error .ioEof, 1)
          | some raw => (fileRecordParse f raw, 1)

/-- `memFetch` with its node-read count. -/
def memFetchCount (r : MemReader) (ip : IpAddress) : (Except RErr Nat) × Nat :=
  if r.isV6 && !ip.isIpv6 then (.error .wrongFam4, 0)
  else if !r.isV6 && ip.isIpv6 then (.error .wrongFam6, 0)
  else memWalkCount r 257 (initMState r ip)

/-- `fileFetch` with its node-read count. -/
def fileFetchCount (f : FReader) (ip : IpAddress) : (Except RErr RecordView) × Nat :=
  if f.isV6 && !ip.isIpv6 then (.error .wrongFam4, 0)
  else if !f.isV6 && ip.isIpv6 then (.error .wrongFam6, 0)
  else fileWalkCount f 257 (initFState f ip)

/-- `MemoryReader::fetch` takes `&self`: the reader handed back to the
caller when the borrow ends is the very reader that was passed, so the
state-passing rendering of a fetch returns the reader unchanged
together with the outcome. -/
def memFetchSt (r : MemReader) (ip : IpAddress) : MemReader × Except RErr Nat :=
  (r, memFetch r ip)

/-- A well-formed 50-byte IPv4 database: one `ZeroFraudScore` small-int
column, `tree_start = 35`, tree of one node at 40 whose two children
both point to the leaf record `[0x28, 5]` at 48 (`tree_end = 48`). -/
def dbGood : List Nat :=
  [1, 1, 35, 0, 0, 2, 0, 50, 0, 0, 0] ++
  nameZeroFraudScore ++ List.replicate 9 0 ++ [16] ++
  [4, 13, 0, 0, 0] ++
  [48, 0, 0, 0, 48, 0, 0, 0] ++
  [0x28, 5]

/-- The memory reader produced by `memFromBytes dbGood`. -/
def rGood : MemReader :=
  ⟨dbGood, false, false, false, 35, 48, { fraudScore0 := some 1 }⟩

/-- The file reader produced by `fileFromBytes dbGood`. -/
def fGood : FReader :=
  ⟨dbGood, 2, 35, 48, false, false, [⟨nameZeroFraudScore, 16⟩], false⟩

/-- A 68-byte IPv4 database on which the two facades diverge: the node
at 48 stores the hole on its 0-side as the nonzero pointer 7
(`7 < tree_start = 35`).  The resident walker treats it as a hole and
backtracks to the record at 64 (fraud score 7); the streaming walker
follows it as an internal "node" made of header bytes 7..14, whose
0-child — the informational total-size field, set to 66 — points at the
record at 66 (fraud score 9). -/
def dbHole : List Nat :=
  [1, 1, 35, 0, 0, 2, 0, 66, 0, 0, 0] ++
  nameZeroFraudScore ++ List.replicate 9 0 ++ [16] ++
  [4, 29, 0, 0, 0] ++
  [56, 0, 0, 0, 48, 0, 0, 0] ++
  [7, 0, 0, 0, 0, 0, 0, 0] ++
  [0, 0, 0, 0, 64, 0, 0, 0] ++
  [0, 7] ++ [0, 9]

def rHole : MemReader :=
  ⟨dbHole, false, false, false, 35, 64, { fraudScore0 := some 1 }⟩

def fHole : FReader :=
  ⟨dbHole, 2, 35, 64, false, false, [⟨nameZeroFraudScore, 16⟩], false⟩

/-- A 50-byte non-blacklist IPv4 database whose root node has no 0-child
(pointer 0); fetching 0.0.0.0 has no set bit to backtrack to. -/
def dbHole0 : List Nat :=
  [1, 1, 35, 0, 0, 2, 0, 50, 0, 0, 0] ++
  nameZeroFraudScore ++ List.replicate 9 0 ++ [16] ++
  [4, 13, 0, 0, 0] ++
  [0, 0, 0, 0, 48, 0, 0, 0] ++
  [0, 7]

def rHole0 : MemReader :=
  ⟨dbHole0, false, false, false, 35, 48, { fraudScore0 := some 1 }⟩

/-- A 75-byte IPv4 database with a second, unrecognized column named
`"Xy"` (small-int record type): `tree_start = 59`, one tree node at 64,
leaf `[0, 7, 0]` at 72. -/
def dbUnknownCol : List Nat :=
  [1, 1, 59, 0, 0, 3, 0, 75, 0, 0, 0] ++
  nameZeroFraudScore ++ List.replicate 9 0 ++ [16] ++
  [88, 121] ++ List.replicate 21 0 ++ [16] ++
  [4, 13, 0, 0, 0] ++
  [72, 0, 0, 0, 72, 0, 0, 0] ++
  [0, 7, 0]

def rUnknownCol : MemReader :=
  ⟨dbUnknownCol, false, false, false, 59, 72, { fraudScore0 := some 1 }⟩

def fUnknownCol : FReader :=
  ⟨dbUnknownCol, 3, 59, 72, false, false,
   [⟨nameZeroFraudScore, 16⟩, ⟨[88, 121], 16⟩], false⟩

/-- A 56-byte IPv4 database with one string column `Country` whose pool
string at 54 is the single byte `0xFF`, which is not valid UTF-8. -/
def dbBadString : List Nat :=
  [1, 1, 35, 0, 0, 5, 0, 56, 0, 0, 0] ++
  nameCountry ++ List.replicate 16 0 ++ [8] ++
  [4, 13, 0, 0, 0] ++
  [48, 0, 0, 0, 48, 0, 0, 0] ++
  [0, 54, 0, 0, 0] ++ [0] ++ [1, 255]

def rBadString : MemReader :=
  ⟨dbBadString, false, false, false, 35, 48, { country := some 1 }⟩

def fBadString : FReader :=
  ⟨dbBadString, 5, 35, 48, false, false, [⟨nameCountry, 8⟩], false⟩

/-- IPv4 address 128.0.0.0. -/
def ipTop : IpAddress := ⟨false, 0x80000000⟩

/-- IPv4 address 1.2.3.4. -/
def ipLow : IpAddress := ⟨false, 0x01020304⟩

/-- IPv4 address 0.0.0.0. -/
def ipZero : IpAddress := ⟨false, 0⟩

/-- The two test nodes of the spec's node-classifier examples. -/
def nodeTen : List Nat := [10, 0, 0, 0, 20, 0, 0, 0]
def nodeTwoHundred : List Nat := [0, 0, 0, 0, 200, 0, 0, 0]

/-- Total width in record bytes of a recognized column list (the
cursor advance of both facades when names and flags are consistent). -/
def colsWidth : List Column → Nat
  | [] => 0
  | c :: rest => (nameWidth c.name).getD 0 + colsWidth rest

/-! ## Theorems -/

theorem lor_mod_two_pow_left (a b n : Nat) :
    (a % 2 ^ n ||| b) % 2 ^ n = (a ||| b) % 2 ^ n := by
  apply Nat.eq_of_testBit_eq
  intro i
  simp only [Nat.testBit_mod_two_pow, Nat.testBit_or]
  cases h : decide (i < n) <;> simp

theorem lor_mod_lor (x c a n : Nat) :
    ((x ||| c) % 2 ^ n ||| a) % 2 ^ n = (x ||| (c % 2 ^ n ||| a)) % 2 ^ n := by
  apply Nat.eq_of_testBit_eq
  intro i
  simp only [Nat.testBit_mod_two_pow, Nat.testBit_or]
  cases h : decide (i < n) <;> simp [Bool.or_assoc]

theorem uvarintAccum_lt (l : List Nat) (s : Nat) : uvarintAccum l s < 2 ^ 64 := by
  induction l generalizing s with
  | nil => simp [uvarintAccum]
  | cons b rest ih =>
    exact Nat.or_lt_two_pow (Nat.mod_lt _ (by positivity)) (ih (s + 7))

theorem uvarintGo_cont (l : List Nat) (h : ∀ b ∈ l, 0x80 ≤ b) :
    ∀ (suffix : List Nat) (i x : Nat), x < 2 ^ 64 →
      uvarintGo (l ++ suffix) i x (7 * i) =
      uvarintGo suffix (i + l.length) ((x ||| uvarintAccum l (7 * i)) % 2 ^ 64)
        (7 * (i + l.length)) := by
  induction l with
  | nil =>
    intro suffix i x hx
    simp only [List.nil_append, uvarintAccum, List.length_nil, Nat.add_zero, Nat.or_zero]
    rw [Nat.mod_eq_of_lt hx]
  | cons b rest ih =>
    intro suffix i x hx
    have hb : ¬ b < 0x80 := by
      have := h b (by simp)
      omega
    have hrest : ∀ y ∈ rest, 0x80 ≤ y := fun y hy => h y (by simp [hy])
    simp only [List.cons_append, uvarintGo, if_neg hb, List.append_eq]
    have h7 : 7 * i + 7 = 7 * (i + 1) := by ring
    rw [h7, ih hrest suffix (i + 1) _ (Nat.mod_lt _ (by positivity))]
    have hidx : i + 1 + rest.length = i + (rest.length + 1) := by omega
    rw [hidx]
    have hlen : (b :: rest).length = rest.length + 1 := by simp
    rw [hlen]
    congr 1
    calc ((x ||| (b &&& 127) <<< (7 * i)) % 2 ^ 64 ||| uvarintAccum rest (7 * (i + 1))) % 2 ^ 64
        = (x ||| ((b &&& 127) <<< (7 * i) % 2 ^ 64 ||| uvarintAccum rest (7 * (i + 1)))) % 2 ^ 64 :=
          lor_mod_lor _ _ _ _
      _ = (x ||| uvarintAccum (b :: rest) (7 * i)) % 2 ^ 64 := by
          simp only [uvarintAccum, h7]

/-- **C3, counterexample.**  The claim states that `uvarint64` "fails on
every slice too short to terminate (every byte in the slice has its
continuation/high bit set)"; on the slice `[0x80]` every byte has the
high bit set, yet the decoder returns `Ok(0)`. -/
theorem C3_counterexample :
    uvarint64 [0x80] = .ok 0 ∧ (∀ b ∈ [0x80], 0x80 ≤ b) := by
  constructor
  · rfl
  · decide

/-- **C3 (amended).**  `uvarint64` fails on every slice longer than 10
bytes; a slice of at most 10 bytes in which every byte has the high bit
set is accepted and decodes to the accumulation of the low 7 bits of
each byte at increasing positions (no error); a slice whose first
high-bit-clear byte `t` follows `l.length` continuation bytes fails iff
`t` is the 10th byte and exceeds 1, and otherwise decodes to the
accumulation of `l` together with `t`, the bytes after the terminator
being ignored. -/
theorem C3_uvarint64_characterization :
    (∀ bytes : List Nat, 10 < bytes.length → uvarint64 bytes = .error .varintTooLong) ∧
    (∀ bytes : List Nat, bytes.length ≤ 10 → (∀ b ∈ bytes, 0x80 ≤ b) →
      uvarint64 bytes = .ok (uvarintAccum bytes 0)) ∧
    (∀ (l : List Nat) (t : Nat) (rest : List Nat),
      (l ++ t :: rest).length ≤ 10 → (∀ b ∈ l, 0x80 ≤ b) → t < 0x80 →
      uvarint64 (l ++ t :: rest) =
        if l.length = 9 ∧ 1 < t then .error .varintOverflow
        else .ok ((uvarintAccum l 0 ||| t <<< (7 * l.length)) % 2 ^ 64)) := by
  refine ⟨fun bytes h => by simp [uvarint64, h], ?_, ?_⟩
  · intro bytes hlen hcont
    have hg := uvarintGo_cont bytes hcont [] 0 0 (by positivity)
    simp only [List.append_nil, Nat.mul_zero, Nat.zero_add] at hg
    rw [uvarint64, if_neg (by omega), hg]
    simp only [uvarintGo]
    rw [Nat.zero_or, Nat.mod_eq_of_lt (uvarintAccum_lt _ _)]
  · intro l t rest hlen hcont ht
    have hg := uvarintGo_cont l hcont (t :: rest) 0 0 (by positivity)
    simp only [Nat.mul_zero, Nat.zero_add] at hg
    rw [uvarint64, if_neg (by omega), hg]
    simp only [uvarintGo, if_pos ht]
    by_cases hc : l.length = 9 ∧ 1 < t
    · simp only [if_pos hc]
    · simp only [if_neg hc]
      rw [Nat.zero_or, lor_mod_two_pow_left]

/-- **C3, witness** for the amended characterization: the spec's own
example `[0x93, 0x02, 0x00]`, a continuation byte `0x93` followed by the
terminator `0x02` with a surplus byte, decodes to 275. -/
theorem C3_witness :
    ([0x93] ++ 0x02 :: [0x00]).length ≤ 10 ∧ (∀ b ∈ [0x93], 0x80 ≤ b) ∧ 0x02 < 0x80 ∧
    uvarint64 ([0x93] ++ 0x02 :: [0x00]) =
      (if [0x93].length = 9 ∧ 1 < 0x02 then .error .varintOverflow
       else .ok ((uvarintAccum [0x93] 0 ||| 0x02 <<< (7 * [0x93].length)) % 2 ^ 64)) ∧
    uvarint64 [0x93, 0x02, 0x00] = .ok 275 := by
  refine ⟨by decide, by decide, by decide,
    C3_uvarint64_characterization.2.2 [0x93] 0x02 [0x00] (by decide) (by decide) (by decide),
    by decide⟩

/-- **C5** (code bug, evaluation at the failing input).  For the IPv6
address `8000::` (only position 0 set), a backtrack from index 5 finds
the set bit at position 0, and `set_branch(0)` — whose release-build
shift `u128::MAX << 128` masks to `<< 0` — fails to clear it: every one
of the 128 bits of the result is set, position 0 included (a debug
build panics on the shift overflow instead).  The spec requires bit
`k = 0` to be cleared and the bits after it set, i.e. the value
`2 ^ 127 - 1`. -/
theorem C5_backtrack_bit0_eval :
    AddressBits.tryBacktrack ⟨2 ^ 127, 128⟩ 5 = some (0, ⟨2 ^ 128 - 1, 128⟩) ∧
    AddressBits.findPreviousOne ⟨2 ^ 127, 128⟩ 5 = some 0 ∧
    (AddressBits.setBranch ⟨2 ^ 127, 128⟩ 0).position 0 = true ∧
    (AddressBits.setBranch ⟨2 ^ 127, 128⟩ 0).bits ≠ 2 ^ 127 - 1 := by
  refine ⟨by decide, by decide, by decide, by decide⟩

/-- **C7.**  The node classifier selects the low four bytes for bit 0
and the high four for bit 1, reads them little-endian, and returns
`Missing` below `tree_start`, `Leaf` at or above `tree_end`, `Internal`
otherwise, together with the spec's four concrete examples at
`tree_start = 10`, `tree_end = 100`. -/
theorem C7_node_classifier :
    (∀ (bit : Bool) (node : List Nat) (ts te : Nat), ts < te →
      nextNode bit node ts te =
        (if childValue bit node < ts then .missing
         else if te ≤ childValue bit node then .record (childValue bit node)
         else .nextNode (childValue bit node))) ∧
    childValue false nodeTen = fourByteInt (nodeTen.take 4) ∧
    childValue true nodeTen = fourByteInt ((nodeTen.drop 4).take 4) ∧
    nextNode false nodeTen 10 100 = .nextNode 10 ∧
    nextNode true nodeTen 10 100 = .nextNode 20 ∧
    nextNode false nodeTwoHundred 10 100 = .missing ∧
    nextNode true nodeTwoHundred 10 100 = .record 200 := by
  refine ⟨fun bit node ts te _ => rfl, rfl, rfl, by decide, by decide, by decide, by decide⟩

/-- **C7, witness**: the classifier equality instantiated at bit 1 of
the node `left = 0 / right = 200` with `tree_start = 10 < tree_end = 100`. -/
theorem C7_witness :
    nextNode true nodeTwoHundred 10 100 =
      (if childValue true nodeTwoHundred < 10 then .missing
       else if 100 ≤ childValue true nodeTwoHundred then .record (childValue true nodeTwoHundred)
       else .nextNode (childValue true nodeTwoHundred)) :=
  C7_node_classifier.1 true nodeTwoHundred 10 100 (by decide)

/-- **C9, counterexample.**  On a 5-byte input the resident facade's
`from_bytes` panics (`split_at(11)` past the end of the slice) instead
of returning a truncated-file open error. -/
theorem C9_counterexample :
    (List.replicate 5 0).length < 11 ∧
    memFromBytes (List.replicate 5 0) = .error .panicE := by
  refine ⟨by decide, by decide⟩

/-- **C9 (amended).**  For every input shorter than the 11-byte header,
the streaming facade's `from_bytes` fails with an I/O open error
(`read_exact` hits end of file), while the resident facade's
`from_bytes` panics on `split_at(11)` rather than returning an error. -/
theorem C9_short_input (d : List Nat) (h : d.length < 11) :
    memFromBytes d = .error .panicE ∧ fileFromBytes d = .error .ioEof := by
  constructor
  · simp [memFromBytes, if_pos h]
  · simp [fileFromBytes, if_pos h]

/-- **C9, witness**: the empty input. -/
theorem C9_witness :
    ([] : List Nat).length < 11 ∧ memFromBytes [] = .error .panicE ∧
    fileFromBytes [] = .error .ioEof :=
  ⟨by decide, (C9_short_input [] (by decide)).1, (C9_short_input [] (by decide)).2⟩

/-- **C10.**  `MemoryReader::fetch` borrows the reader immutably: in the
state-passing rendering the reader handed back is the one passed in,
two successive fetches on it produce identical outcomes, and the record
accessors (all derived from `memView` over the unchanged reader) are
equal. -/
theorem C10_fetch_deterministic (r : MemReader) (ip : IpAddress) :
    (memFetchSt r ip).1 = r ∧
    memFetchSt (memFetchSt r ip).1 ip = memFetchSt r ip ∧
    (memFetchSt (memFetchSt r ip).1 ip).2 = (memFetchSt r ip).2 ∧
    memView (memFetchSt r ip).1 = memView r :=
  ⟨rfl, rfl, rfl, rfl⟩
theorem memWalk_outcomes (r : MemReader) :
    ∀ (fuel : Nat) (s : MState),
      (∃ p, memWalk r fuel s = .ok p) ∨ memWalk r fuel s = .error .eid9 ∨
      memWalk r fuel s = .error .eid10 ∨ memWalk r fuel s = .error .panicE := by
  intro fuel
  induction fuel with
  | zero => intro s; right; right; left; rfl
  | succ n ih =>
    intro s
    simp only [memWalk]
    by_cases h1 : 128 ≤ s.pos
    · simp only [if_pos h1]; tauto
    · simp only [if_neg h1]
      by_cases h2 : s.addr.len ≤ s.pos
      · simp only [if_pos h2]; tauto
      · simp only [if_neg h2]
        cases hsl : listSlice r.data s.node 8 with
        | none => simp only [hsl]; tauto
        | some nodeBytes =>
          simp only [hsl]
          cases hnn : nextNode (s.addr.position s.pos) nodeBytes r.treeBlockStart r.treeBlockEnd with
          | missing =>
            simp only [hnn]
            by_cases hbl : r.isBlacklist
            · simp only [if_pos hbl]; tauto
            · simp only [if_neg hbl]
              cases htb : s.addr.tryBacktrack s.pos with
              | none => simp only [htb]; exact ih _
              | some ka =>
                simp only [htb]
                cases ka with
                | mk k a' => exact ih _
          | nextNode nn => simp only [hnn]; exact ih _
          | record p => simp only [hnn]; exact Or.inl ⟨p, rfl⟩

/-- **C2, counterexample.**  `dbHole0` is a well-formed non-blacklist
IPv4 file whose root node stores no 0-child; fetching 0.0.0.0 meets the
hole with no set bit at or before the current index, the backtrack
produces nothing, and the walk spins until the 257-iteration ceiling:
the fetch fails with the EID 10 ceiling error, not with a record and
not with `AddressExhausted` (EID 9). -/
theorem C2_counterexample :
    memFromBytes dbHole0 = .ok rHole0 ∧
    rHole0.isBlacklist = false ∧ rHole0.isV6 = ipZero.isIpv6 ∧
    memFetch rHole0 ipZero = .error .eid10 := by
  refine ⟨by decide, rfl, rfl, by decide⟩

/-- **C2 (amended).**  On a non-blacklist file, a fetch of an address of
the matching family either returns a record, or fails with
`AddressExhausted` (EID 9), or fails with the 257-iteration ceiling
error (EID 10, reached in particular when a hole is met while no bit at
or before the current index is set), or aborts on an out-of-bounds read
(modelled as `panicE`); no other error kind — in particular no distinct
`NotFound` — can be produced. -/
theorem C2_fetch_outcomes (r : MemReader) (ip : IpAddress)
    (hfam : r.isV6 = ip.isIpv6) (hbl : r.isBlacklist = false) :
    (∃ p, memFetch r ip = .ok p) ∨ memFetch r ip = .error .eid9 ∨
    memFetch r ip = .error .eid10 ∨ memFetch r ip = .error .panicE := by
  have h := memWalk_outcomes r 257 (initMState r ip)
  cases hip : ip.isIpv6 <;>
    simp only [memFetch, hfam, hip, Bool.not_true, Bool.not_false, Bool.and_true,
      Bool.and_false, Bool.true_and, Bool.false_and, if_false, if_true] <;>
    exact h

/-- **C2, witness**: the well-formed file `dbGood` with the IPv4 address
1.2.3.4. -/
theorem C2_witness :
    (∃ p, memFetch rGood ipLow = .ok p) ∨ memFetch rGood ipLow = .error .eid9 ∨
    memFetch rGood ipLow = .error .eid10 ∨ memFetch rGood ipLow = .error .panicE :=
  C2_fetch_outcomes rGood ipLow rfl rfl
theorem memWalkCount_fst (r : MemReader) :
    ∀ (fuel : Nat) (s : MState), (memWalkCount r fuel s).1 = memWalk r fuel s := by
  intro fuel
  induction fuel with
  | zero => intro s; rfl
  | succ n ih =>
    intro s
    simp only [memWalkCount, memWalk]
    by_cases h1 : 128 ≤ s.pos
    · simp only [if_pos h1]
    · simp only [if_neg h1]
      by_cases h2 : s.addr.len ≤ s.pos
      · simp only [if_pos h2]
      · simp only [if_neg h2]
        cases hsl : listSlice r.data s.node 8 with
        | none => simp only [hsl]
        | some nodeBytes =>
          simp only [hsl]
          cases hnn : nextNode (s.addr.position s.pos) nodeBytes r.treeBlockStart r.treeBlockEnd with
          | missing =>
            simp only [hnn]
            by_cases hbl : r.isBlacklist
            · simp only [if_pos hbl]
            · simp only [if_neg hbl]
              cases htb : s.addr.tryBacktrack s.pos with
              | none => simp only [htb]; exact ih _
              | some ka => cases ka with
                | mk k a' => simp only [htb]; exact ih _
          | nextNode nn => simp only [hnn]; exact ih _
          | record p => simp only [hnn]
theorem memWalkCount_le (r : MemReader) :
    ∀ (fuel : Nat) (s : MState), (memWalkCount r fuel s).2 ≤ fuel := by
  intro fuel
  induction fuel with
  | zero => intro s; exact Nat.le_refl 0
  | succ n ih =>
    intro s
    simp only [memWalkCount]
    by_cases h1 : 128 ≤ s.pos
    · simp only [if_pos h1]; omega
    · simp only [if_neg h1]
      by_cases h2 : s.addr.len ≤ s.pos
      · simp only [if_pos h2]; omega
      · simp only [if_neg h2]
        cases hsl : listSlice r.data s.node 8 with
        | none => simp only [hsl]; omega
        | some nodeBytes =>
          simp only [hsl]
          cases hnn : nextNode (s.addr.position s.pos) nodeBytes r.treeBlockStart r.treeBlockEnd with
          | missing =>
            simp only [hnn]
            by_cases hbl : r.isBlacklist
            · simp only [if_pos hbl]; omega
            · simp only [if_neg hbl]
              cases htb : s.addr.tryBacktrack s.pos with
              | none =>
                simp only [htb]
                have := ih ⟨s.pos, s.node, s.addr, fun i => if i = s.pos then s.node else s.prev i⟩
                omega
              | some ka => cases ka with
                | mk k a' =>
                  simp only [htb]
                  have := ih ⟨k, if k = s.pos then s.node else s.prev k, a',
                    fun i => if i = s.pos then s.node else s.prev i⟩
                  omega
          | nextNode nn =>
            simp only [hnn]
            have := ih ⟨s.pos + 1, nn, s.addr, fun i => if i = s.pos then s.node else s.prev i⟩
            omega
          | record p => simp only [hnn]; omega
theorem fileWalkCount_fst (f : FReader) :
    ∀ (fuel : Nat) (s : FState), (fileWalkCount f fuel s).1 = fileWalk f fuel s := by
  intro fuel
  induction fuel with
  | zero => intro s; rfl
  | succ n ih =>
    intro s
    simp only [fileWalkCount, fileWalk]
    by_cases h1 : s.bin.length ≤ s.pos
    · simp only [if_pos h1]
    · simp only [if_neg h1]
      cases hsl : listSlice f.data s.fpos 8 with
      | none => simp only [hsl]
      | some node =>
        simp only [hsl]
        by_cases hh : (!f.isBlacklist && childValue (s.bin.getD s.pos false) node = 0) = true
        · simp only [if_pos hh]
          cases hfs : findSetDown s.bin s.pos with
          | none => simp only [hfs]; exact ih _
          | some k =>
            simp only [hfs]
            cases hpv : (if k = s.pos then some s.fpos else s.prev k) with
            | none => simp only [hpv]
            | some np => simp only [hpv]; exact ih _
        · simp only [if_neg hh]
          by_cases h3 : childValue (s.bin.getD s.pos false) node < f.treeEnd
          · simp only [if_pos h3]
            by_cases h4 : childValue (s.bin.getD s.pos false) node = 0
            · simp only [if_pos h4]
            · simp only [if_neg h4]; exact ih _
          · simp only [if_neg h3]
            cases hr : listSlice f.data (childValue (s.bin.getD s.pos false) node) f.recordBytes with
            | none => simp only [hr]
            | some raw => simp only [hr]
theorem fileWalkCount_le (f : FReader) :
    ∀ (fuel : Nat) (s : FState), (fileWalkCount f fuel s).2 ≤ fuel := by
  intro fuel
  induction fuel with
  | zero => intro s; exact Nat.le_refl 0
  | succ n ih =>
    intro s
    simp only [fileWalkCount]
    by_cases h1 : s.bin.length ≤ s.pos
    · simp only [if_pos h1]; omega
    · simp only [if_neg h1]
      cases hsl : listSlice f.data s.fpos 8 with
      | none => simp only [hsl]; omega
      | some node =>
        simp only [hsl]
        by_cases hh : (!f.isBlacklist && childValue (s.bin.getD s.pos false) node = 0) = true
        · simp only [if_pos hh]
          cases hfs : findSetDown s.bin s.pos with
          | none =>
            simp only [hfs]
            have := ih ⟨s.pos, 0, s.bin, fun i => if i = s.pos then some s.fpos else s.prev i⟩
            omega
          | some k =>
            simp only [hfs]
            cases hpv : (if k = s.pos then some s.fpos else s.prev k) with
            | none => simp only [hpv]; omega
            | some np =>
              simp only [hpv]
              have := ih ⟨k, np, fallbackBits s.bin k,
                fun i => if i = s.pos then some s.fpos else s.prev i⟩
              omega
        · simp only [if_neg hh]
          by_cases h3 : childValue (s.bin.getD s.pos false) node < f.treeEnd
          · simp only [if_pos h3]
            by_cases h4 : childValue (s.bin.getD s.pos false) node = 0
            · simp only [if_pos h4]; omega
            · simp only [if_neg h4]
              have := ih ⟨s.pos + 1, childValue (s.bin.getD s.pos false) node, s.bin,
                fun i => if i = s.pos then some s.fpos else s.prev i⟩
              omega
          · simp only [if_neg h3]
            cases hr : listSlice f.data (childValue (s.bin.getD s.pos false) node) f.recordBytes with
            | none => simp only [hr]; omega
            | some raw => simp only [hr]; omega

/-- **C8.**  Both fetch loops are bounded: the instrumented walkers
perform at most 257 node reads and compute the very same outcome as
`memFetch`/`fileFetch`, and a walk whose 257-iteration budget is
exhausted without producing a record or another error fails with the
EID 10 ceiling error (the `TreeTooDeep` kind). -/
theorem C8_fetch_bounded (r : MemReader) (f : FReader) (ip : IpAddress) :
    (memFetchCount r ip).1 = memFetch r ip ∧ (memFetchCount r ip).2 ≤ 257 ∧
    (fileFetchCount f ip).1 = fileFetch f ip ∧ (fileFetchCount f ip).2 ≤ 257 ∧
    (∀ s, memWalk r 0 s = .error .eid10) ∧
    (∀ s, fileWalk f 0 s = .error .eid10) := by
  refine ⟨?_, ?_, ?_, ?_, fun s => rfl, fun s => rfl⟩
  · simp only [memFetchCount, memFetch]
    split
    · rfl
    · split
      · rfl
      · exact memWalkCount_fst r 257 _
  · simp only [memFetchCount]
    split
    · exact Nat.zero_le _
    · split
      · exact Nat.zero_le _
      · exact memWalkCount_le r 257 _
  · simp only [fileFetchCount, fileFetch]
    split
    · rfl
    · split
      · rfl
      · exact fileWalkCount_fst f 257 _
  · simp only [fileFetchCount]
    split
    · exact Nat.zero_le _
    · split
      · exact Nat.zero_le _
      · exact fileWalkCount_le f 257 _
theorem nameWidth_none_of_unrecognized (n : List Nat)
    (h : isRecognizedName n = false) : nameWidth n = none := by
  cases hw : nameWidth n with
  | none => rfl
  | some w => simp [isRecognizedName, hw] at h

theorem unrecognized_ne_names (n : List Nat) (h : isRecognizedName n = false) :
    (n ≠ nameASN ∧ n ≠ nameLatitude ∧ n ≠ nameLongitude) ∧
    (n ≠ nameZeroFraudScore ∧ n ≠ nameOneFraudScore ∧ n ≠ nameTwoFraudScore ∧
      n ≠ nameThreeFraudScore) ∧
    (n ≠ nameCountry ∧ n ≠ nameCity ∧ n ≠ nameRegion ∧ n ≠ nameISP ∧
      n ≠ nameOrganization ∧ n ≠ nameTimezone) := by
  have h' := nameWidth_none_of_unrecognized n h
  simp only [nameWidth] at h'
  split_ifs at h' with hA hB hC
  push_neg at hA hB hC
  exact ⟨hA, hB, hC⟩

theorem Columns.insertCol_unknown (acc : Columns) (n : List Nat) (off : Nat)
    (h : isRecognizedName n = false) : Columns.insertCol acc n off = acc := by
  obtain ⟨hA, hB, hC⟩ := unrecognized_ne_names n h
  simp only [Columns.insertCol, if_neg hA.1, if_neg hA.2.1, if_neg hA.2.2,
    if_neg hB.1, if_neg hB.2.1, if_neg hB.2.2.1, if_neg hB.2.2.2,
    if_neg hC.1, if_neg hC.2.1, if_neg hC.2.2.1, if_neg hC.2.2.2.1,
    if_neg hC.2.2.2.2.1, if_neg hC.2.2.2.2.2]

theorem assignStringField_unknown (v : RecordView) (n : List Nat) (sv : List Nat)
    (h : isRecognizedName n = false) : assignStringField v n sv = .error .eid13 := by
  obtain ⟨_, _, hC⟩ := unrecognized_ne_names n h
  simp only [assignStringField, if_neg hC.1, if_neg hC.2.1, if_neg hC.2.2.1,
    if_neg hC.2.2.2.1, if_neg hC.2.2.2.2.1, if_neg hC.2.2.2.2.2]

/-- **C4, counterexample.**  `dbUnknownCol` carries an unrecognized
column `"Xy"`: the resident facade's fetch succeeds (the column only
advances the offset cursor), but the streaming facade's fetch fails
record decode with the EID 13 error rather than succeeding — the claim
that fetch succeeds on both facades is false. -/
theorem C4_counterexample :
    memFromBytes dbUnknownCol = .ok rUnknownCol ∧
    fileFromBytes dbUnknownCol = .ok fUnknownCol ∧
    (∃ c ∈ fUnknownCol.columns, isRecognizedName c.name = false) ∧
    memFetch rUnknownCol ipZero = .ok 72 ∧
    fileFetch fUnknownCol ipZero = .error .eid13 := by
  refine ⟨by decide, by decide, ⟨⟨[88, 121], 16⟩, by decide, by decide⟩, by decide, by decide⟩

/-- **C4 (amended).**  A column with a name outside the recognized
vocabulary consumes its byte width and contributes no accessor on the
resident facade (`Columns::new` skips it while advancing the cursor), so
the resident fetch is unaffected; on the streaming facade, however,
`Record::parse` never succeeds on a column list that contains an
unrecognized name — its catch-all arm ends in the EID 13 decode error
(or an earlier read error). -/
theorem C4_unknown_column_behavior :
    (∀ (c : Column) (rest : List Column) (off : Nat) (acc : Columns),
       isRecognizedName c.name = false →
       Columns.build (c :: rest) off acc = Columns.build rest (off + columnSize c) acc) ∧
    (∀ (data raw : List Nat) (cols : List Column) (cur : Nat) (v : RecordView),
       (∃ c ∈ cols, isRecognizedName c.name = false) →
       (fileParseColumnsSt data raw cols cur v).isOk = false) := by
  constructor
  · intro c rest off acc h
    simp only [Columns.build, Columns.insertCol_unknown acc c.name off h]
  · intro data raw cols
    induction cols with
    | nil =>
      intro cur v h
      rcases h with ⟨c, hc, _⟩
      cases hc
    | cons c rest ih =>
      intro cur v h
      rcases h with ⟨c', hc', hrec⟩
      rcases List.mem_cons.mp hc' with rfl | hmem
      · obtain ⟨hA, hB, _⟩ := unrecognized_ne_names c'.name hrec
        simp only [fileParseColumnsSt, if_neg hA.1, if_neg hA.2.1, if_neg hA.2.2,
          if_neg hB.1, if_neg hB.2.1, if_neg hB.2.2.1, if_neg hB.2.2.2]
        by_cases hf : hasFlag c'.recordType stringData = true
        · simp only [if_pos hf]
          cases hsl : listSlice raw cur 4 with
          | none => rfl
          | some b =>
            dsimp only
            cases hgs : fileGetRangedString data (fourByteInt b) with
            | error e => rfl
            | ok sv =>
              dsimp only
              rw [assignStringField_unknown v c'.name sv hrec]
              rfl
        · simp only [if_neg hf]
          rw [assignStringField_unknown v c'.name [] hrec]
          rfl
      · have hrest : ∃ x ∈ rest, isRecognizedName x.name = false := ⟨c', hmem, hrec⟩
        simp only [fileParseColumnsSt]
        repeat' split
        all_goals first
          | rfl
          | exact ih _ _ hrest

/-- **C4, witness** for the amended behavior, instantiated at the
`"Xy"` column of `dbUnknownCol`. -/
theorem C4_witness :
    Columns.build [⟨[88, 121], 16⟩] 2 {} = Columns.build [] 3 {} ∧
    (fileParseColumnsSt dbUnknownCol [0, 7, 0] fUnknownCol.columns 1 {}).isOk = false := by
  constructor
  · exact C4_unknown_column_behavior.1 ⟨[88, 121], 16⟩ [] 2 {} (by decide)
  · exact C4_unknown_column_behavior.2 dbUnknownCol [0, 7, 0] fUnknownCol.columns 1 {}
      ⟨⟨[88, 121], 16⟩, by decide, by decide⟩
/-- **C6, counterexample.**  `dbBadString` stores the invalid UTF-8
string `[0xFF]` for its `Country` column.  The streaming facade's fetch
fails (the `String::from_utf8` error propagates through
`Record::parse`), but the resident facade succeeds and returns the
record with `country` absent — `string_column` turns the decode error
into `None` via `.ok()`, so the record does not fail with a `BadString`
error on both facades as claimed. -/
theorem C6_counterexample :
    memFromBytes dbBadString = .ok rBadString ∧
    fileFromBytes dbBadString = .ok fBadString ∧
    memFetch rBadString ipZero = .ok 48 ∧
    (memView rBadString 48).country = none ∧
    getRangedStringE rBadString 49 = .error .badUtf8 ∧
    fileFetch fBadString ipZero = .error .badUtf8 := by
  refine ⟨by decide, by decide, by decide, by decide, by decide, by decide⟩

/-- **C6 (amended).**  A string column whose stored content does not
decode (in particular, is not valid UTF-8) makes the record decode fail
on the streaming facade only: the string-read error propagates out of
the column loop of `Record::parse` (second and third conjuncts: a
failing string column aborts the loop, and an abort after a decoded
prefix aborts the whole list).  On the resident facade the accessor
returns `None` for that field (first conjunct) and the fetch itself is
unaffected. -/
theorem C6_bad_string_behavior :
    (∀ (r : MemReader) (off c : Nat),
       getRangedStringE r (off + c) = .error .badUtf8 →
       memStringColumn r off (some c) = none) ∧
    (∀ (data raw : List Nat) (c : Column) (cs₂ : List Column) (cur : Nat)
       (v : RecordView) (b : List Nat) (e : RErr),
       isStringName c.name = true →
       hasFlag c.recordType stringData = true →
       listSlice raw cur 4 = some b →
       fileGetRangedString data (fourByteInt b) = .error e →
       fileParseColumnsSt data raw (c :: cs₂) cur v = .error e) ∧
    (∀ (data raw : List Nat) (cs₁ cs₂ : List Column) (cur cur' : Nat)
       (v v' : RecordView) (e : RErr),
       fileParseColumnsSt data raw cs₁ cur v = .ok (v', cur') →
       fileParseColumnsSt data raw cs₂ cur' v' = .error e →
       fileParseColumnsSt data raw (cs₁ ++ cs₂) cur v = .error e) := by
  refine ⟨?_, ?_, ?_⟩
  · intro r off c h
    simp only [memStringColumn, h]
  · intro data raw c cs₂ cur v b e hs hflag hslice hstr
    simp only [isStringName, Bool.or_eq_true, decide_eq_true_eq] at hs
    cases hs with
    | inl hs =>
      cases hs with
      | inl hs =>
        cases hs with
        | inl hs =>
          cases hs with
          | inl hs =>
            cases hs with
            | inl h =>
              simp only [fileParseColumnsSt]
              rw [h]
              simp [nameASN, nameLatitude, nameLongitude, nameZeroFraudScore, nameOneFraudScore,
                nameTwoFraudScore, nameThreeFraudScore, nameCountry, nameCity, nameRegion, nameISP,
                nameOrganization, nameTimezone, hflag, hslice, hstr]
            | inr h =>
              simp only [fileParseColumnsSt]
              rw [h]
              simp [nameASN, nameLatitude, nameLongitude, nameZeroFraudScore, nameOneFraudScore,
                nameTwoFraudScore, nameThreeFraudScore, nameCountry, nameCity, nameRegion, nameISP,
                nameOrganization, nameTimezone, hflag, hslice, hstr]
          | inr h =>
            simp only [fileParseColumnsSt]
            rw [h]
            simp [nameASN, nameLatitude, nameLongitude, nameZeroFraudScore, nameOneFraudScore,
              nameTwoFraudScore, nameThreeFraudScore, nameCountry, nameCity, nameRegion, nameISP,
              nameOrganization, nameTimezone, hflag, hslice, hstr]
        | inr h =>
          simp only [fileParseColumnsSt]
          rw [h]
          simp [nameASN, nameLatitude, nameLongitude, nameZeroFraudScore, nameOneFraudScore,
            nameTwoFraudScore, nameThreeFraudScore, nameCountry, nameCity, nameRegion, nameISP,
            nameOrganization, nameTimezone, hflag, hslice, hstr]
      | inr h =>
        simp only [fileParseColumnsSt]
        rw [h]
        simp [nameASN, nameLatitude, nameLongitude, nameZeroFraudScore, nameOneFraudScore,
          nameTwoFraudScore, nameThreeFraudScore, nameCountry, nameCity, nameRegion, nameISP,
          nameOrganization, nameTimezone, hflag, hslice, hstr]
    | inr h =>
      simp only [fileParseColumnsSt]
      rw [h]
      simp [nameASN, nameLatitude, nameLongitude, nameZeroFraudScore, nameOneFraudScore,
        nameTwoFraudScore, nameThreeFraudScore, nameCountry, nameCity, nameRegion, nameISP,
        nameOrganization, nameTimezone, hflag, hslice, hstr]
  · intro data raw cs₁
    induction cs₁ with
    | nil =>
      intro cs₂ cur cur' v v' e h1 h2
      simp only [fileParseColumnsSt] at h1
      cases h1
      simpa using h2
    | cons c cs₁' ih =>
      intro cs₂ cur cur' v v' e h1 h2
      simp only [fileParseColumnsSt, List.cons_append] at h1 ⊢
      by_cases hn1 : c.name = nameASN
      · simp only [if_pos hn1] at h1 ⊢
        split at h1
        all_goals try exact absurd h1 (by simp)
        exact ih _ _ _ _ _ _ h1 h2
      simp only [if_neg hn1] at h1 ⊢
      by_cases hn2 : c.name = nameLatitude
      · simp only [if_pos hn2] at h1 ⊢
        split at h1
        all_goals try exact absurd h1 (by simp)
        exact ih _ _ _ _ _ _ h1 h2
      simp only [if_neg hn2] at h1 ⊢
      by_cases hn3 : c.name = nameLongitude
      · simp only [if_pos hn3] at h1 ⊢
        split at h1
        all_goals try exact absurd h1 (by simp)
        exact ih _ _ _ _ _ _ h1 h2
      simp only [if_neg hn3] at h1 ⊢
      by_cases hn4 : c.name = nameZeroFraudScore
      · simp only [if_pos hn4] at h1 ⊢
        split at h1
        · simp at h1
        · rename_i hlen
          rw [if_neg hlen]
          exact ih _ _ _ _ _ _ h1 h2
      simp only [if_neg hn4] at h1 ⊢
      by_cases hn5 : c.name = nameOneFraudScore
      · simp only [if_pos hn5] at h1 ⊢
        split at h1
        · simp at h1
        · rename_i hlen
          rw [if_neg hlen]
          exact ih _ _ _ _ _ _ h1 h2
      simp only [if_neg hn5] at h1 ⊢
      by_cases hn6 : c.name = nameTwoFraudScore
      · simp only [if_pos hn6] at h1 ⊢
        split at h1
        · simp at h1
        · rename_i hlen
          rw [if_neg hlen]
          exact ih _ _ _ _ _ _ h1 h2
      simp only [if_neg hn6] at h1 ⊢
      by_cases hn7 : c.name = nameThreeFraudScore
      · simp only [if_pos hn7] at h1 ⊢
        split at h1
        · simp at h1
        · rename_i hlen
          rw [if_neg hlen]
          exact ih _ _ _ _ _ _ h1 h2
      simp only [if_neg hn7] at h1 ⊢
      by_cases hf : hasFlag c.recordType stringData = true
      · simp only [if_pos hf] at h1 ⊢
        split at h1
        all_goals try exact absurd h1 (by simp)
        split at h1
        all_goals try exact absurd h1 (by simp)
        split at h1
        all_goals try exact absurd h1 (by simp)
        exact ih _ _ _ _ _ _ h1 h2
      · simp only [if_neg hf] at h1 ⊢
        split at h1
        all_goals try exact absurd h1 (by simp)
        exact ih _ _ _ _ _ _ h1 h2

/-- **C6, witness**: the `Country` column of `dbBadString` at record
offset 48 (column offset 1). -/
theorem C6_witness :
    getRangedStringE rBadString (48 + 1) = .error .badUtf8 ∧
    memStringColumn rBadString 48 (some 1) = none ∧
    fileParseColumnsSt dbBadString [0, 54, 0, 0, 0] [⟨nameCountry, 8⟩] 1 {} =
      .error .badUtf8 := by
  refine ⟨by decide, C6_bad_string_behavior.1 rBadString 48 1 (by decide),
    C6_bad_string_behavior.2.1 dbBadString [0, 54, 0, 0, 0] ⟨nameCountry, 8⟩ [] 1 {}
      [54, 0, 0, 0] .badUtf8 (by decide) (by decide) (by decide) (by decide)⟩

theorem position_eq_testBit (a : AddressBits) (i : Nat) :
    a.position i = a.bits.testBit (a.len - i - 1) := by
  have h2 : a.bitMask i = 2 ^ (a.len - i - 1) := by
    simp [AddressBits.bitMask, Nat.one_shiftLeft]
  rw [AddressBits.position, h2, Nat.and_two_pow]
  cases h : a.bits.testBit (a.len - i - 1) <;> simp [h, Nat.pos_iff_ne_zero, Nat.pow_pos]

theorem testBit_maskShift (s b : Nat) :
    ((u128Max <<< s) % 2 ^ 128).testBit b = (decide (s ≤ b) && decide (b < 128)) := by
  simp only [u128Max, Nat.testBit_mod_two_pow, Nat.testBit_shiftLeft,
    Nat.testBit_two_pow_sub_one]
  by_cases h1 : b < 128 <;> by_cases h2 : s ≤ b <;>
    simp [h1, h2, ge_iff_le] <;> omega

theorem setBranch_len (a : AddressBits) (k : Nat) : (a.setBranch k).len = a.len := rfl

theorem setBranch_bits_lt (a : AddressBits) (k : Nat) (hk : k < a.len)
    (hb : a.bits < 2 ^ a.len) : (a.setBranch k).bits < 2 ^ a.len := by
  apply Nat.or_lt_two_pow
  · exact Nat.lt_of_le_of_lt Nat.and_le_left hb
  · calc a.bitMask k - 1 < a.bitMask k := by
          have : 0 < a.bitMask k := by
            rw [AddressBits.bitMask, Nat.one_shiftLeft]
            exact Nat.pow_pos (by norm_num)
          omega
      _ = 2 ^ (a.len - k - 1) := by simp [AddressBits.bitMask, Nat.one_shiftLeft]
      _ ≤ 2 ^ a.len := Nat.pow_le_pow_right (by omega) (by omega)

theorem setBranch_position (a : AddressBits) (k j : Nat) (hk : k < a.len)
    (hlen : a.len ≤ 128) (hg : ¬(a.len = 128 ∧ k = 0)) (hj : j < a.len) :
    (a.setBranch k).position j =
      (if j < k then a.position j else if j = k then false else true) := by
  have hs : (a.len - k) % 128 = a.len - k := by
    apply Nat.mod_eq_of_lt
    rcases Nat.lt_or_ge a.len 128 with h | h
    · omega
    · have : a.len = 128 := by omega
      have : k ≠ 0 := fun h0 => hg ⟨this, h0⟩
      omega
  rw [position_eq_testBit, position_eq_testBit]
  simp only [AddressBits.setBranch, hs]
  rw [Nat.testBit_or, Nat.testBit_and, testBit_maskShift]
  have hmask : a.bitMask k - 1 = 2 ^ (a.len - k - 1) - 1 := by
    simp [AddressBits.bitMask, Nat.one_shiftLeft]
  rw [hmask, Nat.testBit_two_pow_sub_one]
  by_cases h1 : j < k
  · rw [if_pos h1]
    have e1 : a.len - k ≤ a.len - j - 1 := by omega
    have e2 : a.len - j - 1 < 128 := by omega
    have e3 : ¬ (a.len - j - 1 < a.len - k - 1) := by omega
    simp [e1, e2, e3]
  · rw [if_neg h1]
    by_cases h2 : j = k
    · subst h2
      have e1 : ¬ (a.len - j ≤ a.len - j - 1) := by omega
      have e3 : ¬ (a.len - j - 1 < a.len - j - 1) := by omega
      simp [e1, e3]
    · have hkj : k < j := by omega
      have e3 : a.len - j - 1 < a.len - k - 1 := by omega
      simp [e3, h2]

theorem ctzGo_spec : ∀ (fuel n : Nat), n ≠ 0 → n < 2 ^ fuel →
    n.testBit (ctzGo fuel n) = true ∧ ∀ j < ctzGo fuel n, n.testBit j = false := by
  intro fuel
  induction fuel with
  | zero => intro n h0 hlt; omega
  | succ m ih =>
    intro n h0 hlt
    by_cases hp : n % 2 = 1
    · simp [ctzGo, hp, Nat.testBit_zero]
    · have hd : n / 2 ≠ 0 := by omega
      have hd2 : n / 2 < 2 ^ m := by
        rw [Nat.pow_succ] at hlt
        omega
      obtain ⟨h1, h2⟩ := ih (n / 2) hd hd2
      refine ⟨?_, ?_⟩
      · simpa [ctzGo, hp, Nat.testBit_succ] using h1
      · intro j hj
        simp only [ctzGo, hp, if_false] at hj
        cases j with
        | zero => simp [Nat.testBit_zero]; omega
        | succ j' =>
          rw [Nat.testBit_succ]
          exact h2 j' (by omega)

theorem findPreviousOne_some_spec (a : AddressBits) (i k : Nat)
    (hi : i < a.len) (hlen : a.len ≤ 128) (hb : a.bits < 2 ^ a.len)
    (h : a.findPreviousOne i = some k) :
    k ≤ i ∧ a.position k = true ∧ ∀ j, k < j → j ≤ i → a.position j = false := by
  rw [AddressBits.findPreviousOne] at h
  set masked := a.bits &&& (u128Max <<< (a.len - 1 - i)) % 2 ^ 128 with hm
  by_cases h0 : masked = 0
  · simp [h0] at h
  · simp only [if_neg h0] at h
    have hmt : ∀ b, masked.testBit b = (a.bits.testBit b && (decide (a.len - 1 - i ≤ b) && decide (b < 128))) := by
      intro b
      rw [hm, Nat.testBit_and, testBit_maskShift]
    have hmlt : masked < 2 ^ a.len := Nat.lt_of_le_of_lt Nat.and_le_left hb
    have hmlt128 : masked < 2 ^ 128 :=
      Nat.lt_of_lt_of_le hmlt (Nat.pow_le_pow_right (by norm_num) hlen)
    obtain ⟨ht, hmin⟩ := ctzGo_spec 128 masked h0 hmlt128
    have htz : ctzGo 128 masked < a.len := by
      by_contra hc
      push_neg at hc
      have : masked.testBit (ctzGo 128 masked) = false :=
        Nat.testBit_lt_two_pow (Nat.lt_of_lt_of_le hmlt (Nat.pow_le_pow_right (by norm_num) hc))
      rw [this] at ht
      cases ht
    have hwin : a.len - 1 - i ≤ ctzGo 128 masked := by
      by_contra hc
      push_neg at hc
      have := hmt (ctzGo 128 masked)
      rw [ht] at this
      simp only [Bool.true_eq] at this
      have hle : decide (a.len - 1 - i ≤ ctzGo 128 masked) = false := by
        simp [hc]
        omega
      rw [hle] at this
      simp at this
    have hbit : a.bits.testBit (ctzGo 128 masked) = true := by
      have := hmt (ctzGo 128 masked)
      rw [ht] at this
      cases hbt : a.bits.testBit (ctzGo 128 masked)
      · rw [hbt] at this
        simp at this
      · rfl
    cases h
    rw [ctz128] at *
    refine ⟨by omega, ?_, ?_⟩
    · rw [position_eq_testBit]
      have : a.len - (a.len - 1 - ctzGo 128 masked) - 1 = ctzGo 128 masked := by omega
      rw [this, hbit]
    · intro j hkj hji
      rw [position_eq_testBit]
      have hjb : a.len - j - 1 < ctzGo 128 masked := by omega
      have := hmin (a.len - j - 1) hjb
      rw [hmt (a.len - j - 1)] at this
      have e1 : decide (a.len - 1 - i ≤ a.len - j - 1) = true := by
        simp
        omega
      have e2 : decide (a.len - j - 1 < 128) = true := by
        simp
        omega
      rw [e1, e2] at this
      simpa using this

theorem findPreviousOne_none_spec (a : AddressBits) (i : Nat)
    (hi : i < a.len) (hlen : a.len ≤ 128) (hb : a.bits < 2 ^ a.len)
    (h : a.findPreviousOne i = none) : ∀ j ≤ i, a.position j = false := by
  rw [AddressBits.findPreviousOne] at h
  by_cases h0 : a.bits &&& (u128Max <<< (a.len - 1 - i)) % 2 ^ 128 = 0
  · intro j hj
    rw [position_eq_testBit]
    have := congrArg (fun n => n.testBit (a.len - j - 1)) h0
    simp only [Nat.testBit_and, testBit_maskShift, Nat.zero_testBit] at this
    have e1 : decide (a.len - 1 - i ≤ a.len - j - 1) = true := by
      simp
      omega
    have e2 : decide (a.len - j - 1 < 128) = true := by
      simp
      omega
    rw [e1, e2] at this
    simpa using this
  · rw [if_neg h0] at h
    exact absurd h (by simp)

theorem findSetDown_eq_some (bin : List Bool) :
    ∀ (pos k : Nat), k ≤ pos → bin.getD k false = true →
      (∀ j, k < j → j ≤ pos → bin.getD j false = false) →
      findSetDown bin pos = some k := by
  intro pos
  induction pos with
  | zero =>
    intro k hk hbit _
    have : k = 0 := by omega
    subst this
    rw [findSetDown, hbit]
    simp
  | succ m ih =>
    intro k hk hbit hmax
    by_cases hkm : k = m + 1
    · subst hkm
      rw [findSetDown, hbit]
      simp
    · have hbm : bin.getD (m + 1) false = false := hmax (m + 1) (by omega) (by omega)
      rw [findSetDown, hbm]
      simp only [Bool.false_eq_true, if_false]
      exact ih k (by omega) hbit (fun j hj1 hj2 => hmax j hj1 (by omega))

theorem fallbackBits_length (bin : List Bool) (k : Nat) :
    (fallbackBits bin k).length = bin.length := by
  simp [fallbackBits]

theorem fallbackBits_getD (bin : List Bool) (k i : Nat) (hi : i < bin.length) :
    (fallbackBits bin k).getD i false =
      (if i = k then false else if k < i then true else bin.getD i false) := by
  have hlen : i < (fallbackBits bin k).length := by
    rw [fallbackBits_length]
    exact hi
  rw [List.getD_eq_getElem?_getD, List.getElem?_eq_getElem hlen]
  rw [List.getD_eq_getElem?_getD, List.getElem?_eq_getElem hi]
  have := List.get_mapIdx bin (fun i b => if i = k then false else if k < i then true else b) i hi
  simp only [List.get_eq_getElem] at this
  simp [fallbackBits, this]

theorem binaryRepresentation_length (ip : IpAddress) :
    (binaryRepresentation ip).length = ip.len := by
  simp [binaryRepresentation]

theorem binaryRepresentation_getD (ip : IpAddress) (i : Nat) (hi : i < ip.len) :
    (binaryRepresentation ip).getD i false = (addressBitsOf ip).position i := by
  rw [position_eq_testBit]
  have hlen : i < (binaryRepresentation ip).length := by
    rw [binaryRepresentation_length]
    exact hi
  rw [List.getD_eq_getElem?_getD, List.getElem?_eq_getElem hlen]
  simp [binaryRepresentation, addressBitsOf]
  congr 1
  omega

theorem listSlice_some (d : List Nat) (i n : Nat) (h : i + n ≤ d.length) :
    listSlice d i n = some ((d.drop i).take n) := by
  simp [listSlice, h]

theorem raw_take_sub (d : List Nat) (p rb c n : Nat) (h : c + n ≤ rb) :
    (((d.drop p).take rb).drop c).take n = (d.drop (p + c)).take n := by
  rw [List.drop_take, List.drop_drop, List.take_take]
  congr 1
  omega

theorem raw_length (d : List Nat) (p rb : Nat) (hlen : p + rb ≤ d.length) :
    ((d.drop p).take rb).length = rb := by
  simp
  omega

theorem raw_getD (d : List Nat) (p rb i : Nat) (hi : i < rb) :
    ((d.drop p).take rb).getD i 0 = d.getD (p + i) 0 := by
  rw [List.getD_eq_getElem?_getD, List.getD_eq_getElem?_getD,
    List.getElem?_take_of_lt hi, List.getElem?_drop]

theorem fileGetRangedString_ok (d : List Nat) (so : Nat) (h : stringOK d so = true) :
    fileGetRangedString d so = .ok ((d.drop (so + 1)).take (d.getD so 0)) := by
  simp only [stringOK, Bool.and_eq_true, decide_eq_true_eq] at h
  obtain ⟨⟨h1, h2⟩, h3⟩ := h
  rw [fileGetRangedString, if_neg (by omega), if_neg (by omega), if_pos h3]

theorem getRangedStringE_ok (r : MemReader) (off : Nat)
    (hsl : off + 4 ≤ r.data.length)
    (h : stringOK r.data (fourByteInt ((r.data.drop off).take 4)) = true) :
    getRangedStringE r off =
      .ok ((r.data.drop (fourByteInt ((r.data.drop off).take 4) + 1)).take
        (r.data.getD (fourByteInt ((r.data.drop off).take 4)) 0)) := by
  simp only [stringOK, Bool.and_eq_true, decide_eq_true_eq] at h
  obtain ⟨⟨h1, h2⟩, h3⟩ := h
  rw [getRangedStringE, listSlice_some r.data off 4 hsl]
  dsimp only
  set so := fourByteInt ((r.data.drop off).take 4) with hso
  have hlen1 : (r.data.drop so).length = r.data.length - so := by simp
  have hne : ¬ (r.data.drop so).length = 0 := by omega
  rw [if_neg hne]
  have hgd : (r.data.drop so).getD 0 0 = r.data.getD so 0 := by
    rw [List.getD_eq_getElem?_getD, List.getD_eq_getElem?_getD, List.getElem?_drop,
      Nat.add_zero]
  rw [hgd]
  have hlen2 : ¬ (r.data.drop so).length < 1 + r.data.getD so 0 := by omega
  rw [if_neg hlen2]
  have hcontent : ((r.data.drop so).drop 1).take (r.data.getD so 0) =
      (r.data.drop (so + 1)).take (r.data.getD so 0) := by
    rw [List.drop_drop]
  rw [hcontent, if_pos h3]

theorem nw_ASN : nameWidth nameASN = some 4 := by decide
theorem nw_Latitude : nameWidth nameLatitude = some 4 := by decide
theorem nw_Longitude : nameWidth nameLongitude = some 4 := by decide
theorem nw_F0 : nameWidth nameZeroFraudScore = some 1 := by decide
theorem nw_F1 : nameWidth nameOneFraudScore = some 1 := by decide
theorem nw_F2 : nameWidth nameTwoFraudScore = some 1 := by decide
theorem nw_F3 : nameWidth nameThreeFraudScore = some 1 := by decide
theorem nw_Country : nameWidth nameCountry = some 4 := by decide
theorem nw_City : nameWidth nameCity = some 4 := by decide
theorem nw_Region : nameWidth nameRegion = some 4 := by decide
theorem nw_ISP : nameWidth nameISP = some 4 := by decide
theorem nw_Organization : nameWidth nameOrganization = some 4 := by decide
theorem nw_Timezone : nameWidth nameTimezone = some 4 := by decide

theorem isStr_ASN : isStringName nameASN = false := by decide
theorem isStr_Latitude : isStringName nameLatitude = false := by decide
theorem isStr_Longitude : isStringName nameLongitude = false := by decide
theorem isStr_F0 : isStringName nameZeroFraudScore = false := by decide
theorem isStr_F1 : isStringName nameOneFraudScore = false := by decide
theorem isStr_F2 : isStringName nameTwoFraudScore = false := by decide
theorem isStr_F3 : isStringName nameThreeFraudScore = false := by decide
theorem isStr_Country : isStringName nameCountry = true := by decide
theorem isStr_City : isStringName nameCity = true := by decide
theorem isStr_Region : isStringName nameRegion = true := by decide
theorem isStr_ISP : isStringName nameISP = true := by decide
theorem isStr_Organization : isStringName nameOrganization = true := by decide
theorem isStr_Timezone : isStringName nameTimezone = true := by decide

theorem fpc_step_ASN (d raw : List Nat) (rest : List Column) (c : Column)
    (hn : c.name = nameASN) (cur : Nat) (v : RecordView) (b : List Nat)
    (hsl : listSlice raw cur 4 = some b) :
    fileParseColumns d raw (c :: rest) cur v =
      fileParseColumns d raw rest (cur + 4) { v with asn := some (fourByteInt b) } := by
  simp only [fileParseColumns]
  rw [hn]
  simp [nameASN, nameLatitude, nameLongitude, nameZeroFraudScore, nameOneFraudScore,
    nameTwoFraudScore, nameThreeFraudScore, nameCountry, nameCity, nameRegion, nameISP,
    nameOrganization, nameTimezone, hsl]


theorem fpc_step_Latitude (d raw : List Nat) (rest : List Column) (c : Column)
    (hn : c.name = nameLatitude) (cur : Nat) (v : RecordView) (b : List Nat)
    (hsl : listSlice raw cur 4 = some b) :
    fileParseColumns d raw (c :: rest) cur v =
      fileParseColumns d raw rest (cur + 4) { v with latitude := some (fourByteInt b) } := by
  simp only [fileParseColumns]
  rw [hn]
  simp [nameASN, nameLatitude, nameLongitude, nameZeroFraudScore, nameOneFraudScore,
    nameTwoFraudScore, nameThreeFraudScore, nameCountry, nameCity, nameRegion, nameISP,
    nameOrganization, nameTimezone, hsl]


theorem fpc_step_Longitude (d raw : List Nat) (rest : List Column) (c : Column)
    (hn : c.name = nameLongitude) (cur : Nat) (v : RecordView) (b : List Nat)
    (hsl : listSlice raw cur 4 = some b) :
    fileParseColumns d raw (c :: rest) cur v =
      fileParseColumns d raw rest (cur + 4) { v with longitude := some (fourByteInt b) } := by
  simp only [fileParseColumns]
  rw [hn]
  simp [nameASN, nameLatitude, nameLongitude, nameZeroFraudScore, nameOneFraudScore,
    nameTwoFraudScore, nameThreeFraudScore, nameCountry, nameCity, nameRegion, nameISP,
    nameOrganization, nameTimezone, hsl]


theorem fpc_step_F0 (d raw : List Nat) (rest : List Column) (c : Column)
    (hn : c.name = nameZeroFraudScore) (cur : Nat) (v : RecordView)
    (hlt : ¬ raw.length ≤ cur) :
    fileParseColumns d raw (c :: rest) cur v =
      fileParseColumns d raw rest (cur + 1) { v with fraudScore0 := some (raw.getD cur 0) } := by
  simp only [fileParseColumns]
  rw [hn]
  simp [nameASN, nameLatitude, nameLongitude, nameZeroFraudScore, nameOneFraudScore,
    nameTwoFraudScore, nameThreeFraudScore, nameCountry, nameCity, nameRegion, nameISP,
    nameOrganization, nameTimezone, hlt]


theorem fpc_step_F1 (d raw : List Nat) (rest : List Column) (c : Column)
    (hn : c.name = nameOneFraudScore) (cur : Nat) (v : RecordView)
    (hlt : ¬ raw.length ≤ cur) :
    fileParseColumns d raw (c :: rest) cur v =
      fileParseColumns d raw rest (cur + 1) { v with fraudScore1 := some (raw.getD cur 0) } := by
  simp only [fileParseColumns]
  rw [hn]
  simp [nameASN, nameLatitude, nameLongitude, nameZeroFraudScore, nameOneFraudScore,
    nameTwoFraudScore, nameThreeFraudScore, nameCountry, nameCity, nameRegion, nameISP,
    nameOrganization, nameTimezone, hlt]


theorem fpc_step_F2 (d raw : List Nat) (rest : List Column) (c : Column)
    (hn : c.name = nameTwoFraudScore) (cur : Nat) (v : RecordView)
    (hlt : ¬ raw.length ≤ cur) :
    fileParseColumns d raw (c :: rest) cur v =
      fileParseColumns d raw rest (cur + 1) { v with fraudScore2 := some (raw.getD cur 0) } := by
  simp only [fileParseColumns]
  rw [hn]
  simp [nameASN, nameLatitude, nameLongitude, nameZeroFraudScore, nameOneFraudScore,
    nameTwoFraudScore, nameThreeFraudScore, nameCountry, nameCity, nameRegion, nameISP,
    nameOrganization, nameTimezone, hlt]


theorem fpc_step_F3 (d raw : List Nat) (rest : List Column) (c : Column)
    (hn : c.name = nameThreeFraudScore) (cur : Nat) (v : RecordView)
    (hlt : ¬ raw.length ≤ cur) :
    fileParseColumns d raw (c :: rest) cur v =
      fileParseColumns d raw rest (cur + 1) { v with fraudScore3 := some (raw.getD cur 0) } := by
  simp only [fileParseColumns]
  rw [hn]
  simp [nameASN, nameLatitude, nameLongitude, nameZeroFraudScore, nameOneFraudScore,
    nameTwoFraudScore, nameThreeFraudScore, nameCountry, nameCity, nameRegion, nameISP,
    nameOrganization, nameTimezone, hlt]


theorem fpc_step_Country (d raw : List Nat) (rest : List Column) (c : Column)
    (hn : c.name = nameCountry) (hf : hasFlag c.recordType stringData = true)
    (cur : Nat) (v : RecordView) (b sv : List Nat)
    (hsl : listSlice raw cur 4 = some b)
    (hstr : fileGetRangedString d (fourByteInt b) = .ok sv) :
    fileParseColumns d raw (c :: rest) cur v =
      fileParseColumns d raw rest (cur + 4) { v with country := some sv } := by
  simp only [fileParseColumns]
  rw [hn]
  simp [nameASN, nameLatitude, nameLongitude, nameZeroFraudScore, nameOneFraudScore,
    nameTwoFraudScore, nameThreeFraudScore, nameCountry, nameCity, nameRegion, nameISP,
    nameOrganization, nameTimezone, hf, hsl, hstr, assignStringField]


theorem fpc_step_City (d raw : List Nat) (rest : List Column) (c : Column)
    (hn : c.name = nameCity) (hf : hasFlag c.recordType stringData = true)
    (cur : Nat) (v : RecordView) (b sv : List Nat)
    (hsl : listSlice raw cur 4 = some b)
    (hstr : fileGetRangedString d (fourByteInt b) = .ok sv) :
    fileParseColumns d raw (c :: rest) cur v =
      fileParseColumns d raw rest (cur + 4) { v with city := some sv } := by
  simp only [fileParseColumns]
  rw [hn]
  simp [nameASN, nameLatitude, nameLongitude, nameZeroFraudScore, nameOneFraudScore,
    nameTwoFraudScore, nameThreeFraudScore, nameCountry, nameCity, nameRegion, nameISP,
    nameOrganization, nameTimezone, hf, hsl, hstr, assignStringField]


theorem fpc_step_Region (d raw : List Nat) (rest : List Column) (c : Column)
    (hn : c.name = nameRegion) (hf : hasFlag c.recordType stringData = true)
    (cur : Nat) (v : RecordView) (b sv : List Nat)
    (hsl : listSlice raw cur 4 = some b)
    (hstr : fileGetRangedString d (fourByteInt b) = .ok sv) :
    fileParseColumns d raw (c :: rest) cur v =
      fileParseColumns d raw rest (cur + 4) { v with region := some sv } := by
  simp only [fileParseColumns]
  rw [hn]
  simp [nameASN, nameLatitude, nameLongitude, nameZeroFraudScore, nameOneFraudScore,
    nameTwoFraudScore, nameThreeFraudScore, nameCountry, nameCity, nameRegion, nameISP,
    nameOrganization, nameTimezone, hf, hsl, hstr, assignStringField]


theorem fpc_step_ISP (d raw : List Nat) (rest : List Column) (c : Column)
    (hn : c.name = nameISP) (hf : hasFlag c.recordType stringData = true)
    (cur : Nat) (v : RecordView) (b sv : List Nat)
    (hsl : listSlice raw cur 4 = some b)
    (hstr : fileGetRangedString d (fourByteInt b) = .ok sv) :
    fileParseColumns d raw (c :: rest) cur v =
      fileParseColumns d raw rest (cur + 4) { v with isp := some sv } := by
  simp only [fileParseColumns]
  rw [hn]
  simp [nameASN, nameLatitude, nameLongitude, nameZeroFraudScore, nameOneFraudScore,
    nameTwoFraudScore, nameThreeFraudScore, nameCountry, nameCity, nameRegion, nameISP,
    nameOrganization, nameTimezone, hf, hsl, hstr, assignStringField]


theorem fpc_step_Organization (d raw : List Nat) (rest : List Column) (c : Column)
    (hn : c.name = nameOrganization) (hf : hasFlag c.recordType stringData = true)
    (cur : Nat) (v : RecordView) (b sv : List Nat)
    (hsl : listSlice raw cur 4 = some b)
    (hstr : fileGetRangedString d (fourByteInt b) = .ok sv) :
    fileParseColumns d raw (c :: rest) cur v =
      fileParseColumns d raw rest (cur + 4) { v with organization := some sv } := by
  simp only [fileParseColumns]
  rw [hn]
  simp [nameASN, nameLatitude, nameLongitude, nameZeroFraudScore, nameOneFraudScore,
    nameTwoFraudScore, nameThreeFraudScore, nameCountry, nameCity, nameRegion, nameISP,
    nameOrganization, nameTimezone, hf, hsl, hstr, assignStringField]


theorem fpc_step_Timezone (d raw : List Nat) (rest : List Column) (c : Column)
    (hn : c.name = nameTimezone) (hf : hasFlag c.recordType stringData = true)
    (cur : Nat) (v : RecordView) (b sv : List Nat)
    (hsl : listSlice raw cur 4 = some b)
    (hstr : fileGetRangedString d (fourByteInt b) = .ok sv) :
    fileParseColumns d raw (c :: rest) cur v =
      fileParseColumns d raw rest (cur + 4) { v with timezone := some sv } := by
  simp only [fileParseColumns]
  rw [hn]
  simp [nameASN, nameLatitude, nameLongitude, nameZeroFraudScore, nameOneFraudScore,
    nameTwoFraudScore, nameThreeFraudScore, nameCountry, nameCity, nameRegion, nameISP,
    nameOrganization, nameTimezone, hf, hsl, hstr, assignStringField]


theorem mvw_asn (r : MemReader) (p cur : Nat) (idx : Columns) :
    memViewWith r p { idx with asn := some cur } =
      { memViewWith r p idx with
         asn := some (fourByteInt ((r.data.drop (p + cur)).take 4)) } := rfl


theorem mvw_latitude (r : MemReader) (p cur : Nat) (idx : Columns) :
    memViewWith r p { idx with latitude := some cur } =
      { memViewWith r p idx with
         latitude := some (fourByteInt ((r.data.drop (p + cur)).take 4)) } := rfl


theorem mvw_longitude (r : MemReader) (p cur : Nat) (idx : Columns) :
    memViewWith r p { idx with longitude := some cur } =
      { memViewWith r p idx with
         longitude := some (fourByteInt ((r.data.drop (p + cur)).take 4)) } := rfl


theorem mvw_fraudScore0 (r : MemReader) (p cur : Nat) (idx : Columns) :
    memViewWith r p { idx with fraudScore0 := some cur } =
      { memViewWith r p idx with fraudScore0 := some (r.data.getD (p + cur) 0) } := rfl


theorem mvw_fraudScore1 (r : MemReader) (p cur : Nat) (idx : Columns) :
    memViewWith r p { idx with fraudScore1 := some cur } =
      { memViewWith r p idx with fraudScore1 := some (r.data.getD (p + cur) 0) } := rfl


theorem mvw_fraudScore2 (r : MemReader) (p cur : Nat) (idx : Columns) :
    memViewWith r p { idx with fraudScore2 := some cur } =
      { memViewWith r p idx with fraudScore2 := some (r.data.getD (p + cur) 0) } := rfl


theorem mvw_fraudScore3 (r : MemReader) (p cur : Nat) (idx : Columns) :
    memViewWith r p { idx with fraudScore3 := some cur } =
      { memViewWith r p idx with fraudScore3 := some (r.data.getD (p + cur) 0) } := rfl


theorem mvw_country (r : MemReader) (p cur : Nat) (idx : Columns) :
    memViewWith r p { idx with country := some cur } =
      { memViewWith r p idx with country := memStringColumn r p (some cur) } := rfl


theorem mvw_city (r : MemReader) (p cur : Nat) (idx : Columns) :
    memViewWith r p { idx with city := some cur } =
      { memViewWith r p idx with city := memStringColumn r p (some cur) } := rfl


theorem mvw_region (r : MemReader) (p cur : Nat) (idx : Columns) :
    memViewWith r p { idx with region := some cur } =
      { memViewWith r p idx with region := memStringColumn r p (some cur) } := rfl


theorem mvw_isp (r : MemReader) (p cur : Nat) (idx : Columns) :
    memViewWith r p { idx with isp := some cur } =
      { memViewWith r p idx with isp := memStringColumn r p (some cur) } := rfl


theorem mvw_organization (r : MemReader) (p cur : Nat) (idx : Columns) :
    memViewWith r p { idx with organization := some cur } =
      { memViewWith r p idx with organization := memStringColumn r p (some cur) } := rfl


theorem mvw_timezone (r : MemReader) (p cur : Nat) (idx : Columns) :
    memViewWith r p { idx with timezone := some cur } =
      { memViewWith r p idx with timezone := memStringColumn r p (some cur) } := rfl


theorem insertCol_asn (idx : Columns) (cur : Nat) :
    Columns.insertCol idx nameASN cur = { idx with asn := some cur } := by
  simp [Columns.insertCol, nameASN, nameLatitude, nameLongitude, nameZeroFraudScore, nameOneFraudScore,
    nameTwoFraudScore, nameThreeFraudScore, nameCountry, nameCity, nameRegion, nameISP,
    nameOrganization, nameTimezone]


theorem insertCol_latitude (idx : Columns) (cur : Nat) :
    Columns.insertCol idx nameLatitude cur = { idx with latitude := some cur } := by
  simp [Columns.insertCol, nameASN, nameLatitude, nameLongitude, nameZeroFraudScore, nameOneFraudScore,
    nameTwoFraudScore, nameThreeFraudScore, nameCountry, nameCity, nameRegion, nameISP,
    nameOrganization, nameTimezone]


theorem insertCol_longitude (idx : Columns) (cur : Nat) :
    Columns.insertCol idx nameLongitude cur = { idx with longitude := some cur } := by
  simp [Columns.insertCol, nameASN, nameLatitude, nameLongitude, nameZeroFraudScore, nameOneFraudScore,
    nameTwoFraudScore, nameThreeFraudScore, nameCountry, nameCity, nameRegion, nameISP,
    nameOrganization, nameTimezone]


theorem insertCol_fraudScore0 (idx : Columns) (cur : Nat) :
    Columns.insertCol idx nameZeroFraudScore cur = { idx with fraudScore0 := some cur } := by
  simp [Columns.insertCol, nameASN, nameLatitude, nameLongitude, nameZeroFraudScore, nameOneFraudScore,
    nameTwoFraudScore, nameThreeFraudScore, nameCountry, nameCity, nameRegion, nameISP,
    nameOrganization, nameTimezone]


theorem insertCol_fraudScore1 (idx : Columns) (cur : Nat) :
    Columns.insertCol idx nameOneFraudScore cur = { idx with fraudScore1 := some cur } := by
  simp [Columns.insertCol, nameASN, nameLatitude, nameLongitude, nameZeroFraudScore, nameOneFraudScore,
    nameTwoFraudScore, nameThreeFraudScore, nameCountry, nameCity, nameRegion, nameISP,
    nameOrganization, nameTimezone]


theorem insertCol_fraudScore2 (idx : Columns) (cur : Nat) :
    Columns.insertCol idx nameTwoFraudScore cur = { idx with fraudScore2 := some cur } := by
  simp [Columns.insertCol, nameASN, nameLatitude, nameLongitude, nameZeroFraudScore, nameOneFraudScore,
    nameTwoFraudScore, nameThreeFraudScore, nameCountry, nameCity, nameRegion, nameISP,
    nameOrganization, nameTimezone]


theorem insertCol_fraudScore3 (idx : Columns) (cur : Nat) :
    Columns.insertCol idx nameThreeFraudScore cur = { idx with fraudScore3 := some cur } := by
  simp [Columns.insertCol, nameASN, nameLatitude, nameLongitude, nameZeroFraudScore, nameOneFraudScore,
    nameTwoFraudScore, nameThreeFraudScore, nameCountry, nameCity, nameRegion, nameISP,
    nameOrganization, nameTimezone]


theorem insertCol_country (idx : Columns) (cur : Nat) :
    Columns.insertCol idx nameCountry cur = { idx with country := some cur } := by
  simp [Columns.insertCol, nameASN, nameLatitude, nameLongitude, nameZeroFraudScore, nameOneFraudScore,
    nameTwoFraudScore, nameThreeFraudScore, nameCountry, nameCity, nameRegion, nameISP,
    nameOrganization, nameTimezone]


theorem insertCol_city (idx : Columns) (cur : Nat) :
    Columns.insertCol idx nameCity cur = { idx with city := some cur } := by
  simp [Columns.insertCol, nameASN, nameLatitude, nameLongitude, nameZeroFraudScore, nameOneFraudScore,
    nameTwoFraudScore, nameThreeFraudScore, nameCountry, nameCity, nameRegion, nameISP,
    nameOrganization, nameTimezone]


theorem insertCol_region (idx : Columns) (cur : Nat) :
    Columns.insertCol idx nameRegion cur = { idx with region := some cur } := by
  simp [Columns.insertCol, nameASN, nameLatitude, nameLongitude, nameZeroFraudScore, nameOneFraudScore,
    nameTwoFraudScore, nameThreeFraudScore, nameCountry, nameCity, nameRegion, nameISP,
    nameOrganization, nameTimezone]


theorem insertCol_isp (idx : Columns) (cur : Nat) :
    Columns.insertCol idx nameISP cur = { idx with isp := some cur } := by
  simp [Columns.insertCol, nameASN, nameLatitude, nameLongitude, nameZeroFraudScore, nameOneFraudScore,
    nameTwoFraudScore, nameThreeFraudScore, nameCountry, nameCity, nameRegion, nameISP,
    nameOrganization, nameTimezone]


theorem insertCol_organization (idx : Columns) (cur : Nat) :
    Columns.insertCol idx nameOrganization cur = { idx with organization := some cur } := by
  simp [Columns.insertCol, nameASN, nameLatitude, nameLongitude, nameZeroFraudScore, nameOneFraudScore,
    nameTwoFraudScore, nameThreeFraudScore, nameCountry, nameCity, nameRegion, nameISP,
    nameOrganization, nameTimezone]


theorem insertCol_timezone (idx : Columns) (cur : Nat) :
    Columns.insertCol idx nameTimezone cur = { idx with timezone := some cur } := by
  simp [Columns.insertCol, nameASN, nameLatitude, nameLongitude, nameZeroFraudScore, nameOneFraudScore,
    nameTwoFraudScore, nameThreeFraudScore, nameCountry, nameCity, nameRegion, nameISP,
    nameOrganization, nameTimezone]

/-- Under the per-column parity conditions, the column loop of the
streaming `Record::parse` computes exactly the resident accessors of the
column index built by `Columns::new`'s loop from the same declared
columns and cursor. -/
theorem fileParseColumns_build (r : MemReader) (p rb : Nat)
    (hlen : p + rb ≤ r.data.length) :
    ∀ (cols : List Column) (cur : Nat) (idx : Columns),
      columnsOK r.data p rb cols cur = true →
      fileParseColumns r.data ((r.data.drop p).take rb) cols cur (memViewWith r p idx) =
        .ok (memViewWith r p (Columns.build cols cur idx)) := by
  intro cols
  induction cols with
  | nil =>
    intro cur idx _
    rfl
  | cons c rest ih =>
    intro cur idx hOK
    simp only [columnsOK, Bool.and_eq_true] at hOK
    obtain ⟨hc, hrest⟩ := hOK
    by_cases h1 : c.name = nameASN
    · simp only [columnOK, h1, nw_ASN, isStr_ASN] at hc
      simp only [Bool.false_eq_true, if_false, Bool.and_true, Bool.and_eq_true,
        decide_eq_true_eq] at hc
      obtain ⟨hw, hcur⟩ := hc
      have hsl : listSlice ((r.data.drop p).take rb) cur 4 =
          some ((((r.data.drop p).take rb).drop cur).take 4) :=
        listSlice_some _ _ _ (by rw [raw_length r.data p rb hlen]; omega)
      rw [fpc_step_ASN _ _ rest c h1 cur _ _ hsl,
        raw_take_sub r.data p rb cur 4 (by omega), ← mvw_asn r p cur idx]
      simp only [Columns.build, h1, insertCol_asn, hw]
      exact ih (cur + 4) { idx with asn := some cur }
        (by simpa only [h1, nw_ASN, Option.getD_some] using hrest)
    by_cases h2 : c.name = nameLatitude
    · simp only [columnOK, h2, nw_Latitude, isStr_Latitude] at hc
      simp only [Bool.false_eq_true, if_false, Bool.and_true, Bool.and_eq_true,
        decide_eq_true_eq] at hc
      obtain ⟨hw, hcur⟩ := hc
      have hsl : listSlice ((r.data.drop p).take rb) cur 4 =
          some ((((r.data.drop p).take rb).drop cur).take 4) :=
        listSlice_some _ _ _ (by rw [raw_length r.data p rb hlen]; omega)
      rw [fpc_step_Latitude _ _ rest c h2 cur _ _ hsl,
        raw_take_sub r.data p rb cur 4 (by omega), ← mvw_latitude r p cur idx]
      simp only [Columns.build, h2, insertCol_latitude, hw]
      exact ih (cur + 4) { idx with latitude := some cur }
        (by simpa only [h2, nw_Latitude, Option.getD_some] using hrest)
    by_cases h3 : c.name = nameLongitude
    · simp only [columnOK, h3, nw_Longitude, isStr_Longitude] at hc
      simp only [Bool.false_eq_true, if_false, Bool.and_true, Bool.and_eq_true,
        decide_eq_true_eq] at hc
      obtain ⟨hw, hcur⟩ := hc
      have hsl : listSlice ((r.data.drop p).take rb) cur 4 =
          some ((((r.data.drop p).take rb).drop cur).take 4) :=
        listSlice_some _ _ _ (by rw [raw_length r.data p rb hlen]; omega)
      rw [fpc_step_Longitude _ _ rest c h3 cur _ _ hsl,
        raw_take_sub r.data p rb cur 4 (by omega), ← mvw_longitude r p cur idx]
      simp only [Columns.build, h3, insertCol_longitude, hw]
      exact ih (cur + 4) { idx with longitude := some cur }
        (by simpa only [h3, nw_Longitude, Option.getD_some] using hrest)
    by_cases h4 : c.name = nameZeroFraudScore
    · simp only [columnOK, h4, nw_F0, isStr_F0] at hc
      simp only [Bool.false_eq_true, if_false, Bool.and_true, Bool.and_eq_true,
        decide_eq_true_eq] at hc
      obtain ⟨hw, hcur⟩ := hc
      have hlt : ¬ ((r.data.drop p).take rb).length ≤ cur := by
        rw [raw_length r.data p rb hlen]
        omega
      rw [fpc_step_F0 _ _ rest c h4 cur _ hlt,
        raw_getD r.data p rb cur (by omega), ← mvw_fraudScore0 r p cur idx]
      simp only [Columns.build, h4, insertCol_fraudScore0, hw]
      exact ih (cur + 1) { idx with fraudScore0 := some cur }
        (by simpa only [h4, nw_F0, Option.getD_some] using hrest)
    by_cases h5 : c.name = nameOneFraudScore
    · simp only [columnOK, h5, nw_F1, isStr_F1] at hc
      simp only [Bool.false_eq_true, if_false, Bool.and_true, Bool.and_eq_true,
        decide_eq_true_eq] at hc
      obtain ⟨hw, hcur⟩ := hc
      have hlt : ¬ ((r.data.drop p).take rb).length ≤ cur := by
        rw [raw_length r.data p rb hlen]
        omega
      rw [fpc_step_F1 _ _ rest c h5 cur _ hlt,
        raw_getD r.data p rb cur (by omega), ← mvw_fraudScore1 r p cur idx]
      simp only [Columns.build, h5, insertCol_fraudScore1, hw]
      exact ih (cur + 1) { idx with fraudScore1 := some cur }
        (by simpa only [h5, nw_F1, Option.getD_some] using hrest)
    by_cases h6 : c.name = nameTwoFraudScore
    · simp only [columnOK, h6, nw_F2, isStr_F2] at hc
      simp only [Bool.false_eq_true, if_false, Bool.and_true, Bool.and_eq_true,
        decide_eq_true_eq] at hc
      obtain ⟨hw, hcur⟩ := hc
      have hlt : ¬ ((r.data.drop p).take rb).length ≤ cur := by
        rw [raw_length r.data p rb hlen]
        omega
      rw [fpc_step_F2 _ _ rest c h6 cur _ hlt,
        raw_getD r.data p rb cur (by omega), ← mvw_fraudScore2 r p cur idx]
      simp only [Columns.build, h6, insertCol_fraudScore2, hw]
      exact ih (cur + 1) { idx with fraudScore2 := some cur }
        (by simpa only [h6, nw_F2, Option.getD_some] using hrest)
    by_cases h7 : c.name = nameThreeFraudScore
    · simp only [columnOK, h7, nw_F3, isStr_F3] at hc
      simp only [Bool.false_eq_true, if_false, Bool.and_true, Bool.and_eq_true,
        decide_eq_true_eq] at hc
      obtain ⟨hw, hcur⟩ := hc
      have hlt : ¬ ((r.data.drop p).take rb).length ≤ cur := by
        rw [raw_length r.data p rb hlen]
        omega
      rw [fpc_step_F3 _ _ rest c h7 cur _ hlt,
        raw_getD r.data p rb cur (by omega), ← mvw_fraudScore3 r p cur idx]
      simp only [Columns.build, h7, insertCol_fraudScore3, hw]
      exact ih (cur + 1) { idx with fraudScore3 := some cur }
        (by simpa only [h7, nw_F3, Option.getD_some] using hrest)
    by_cases h8 : c.name = nameCountry
    · simp only [columnOK, h8, nw_Country, isStr_Country, if_true] at hc
      simp only [Bool.and_eq_true, decide_eq_true_eq] at hc
      obtain ⟨⟨hw, hcur⟩, hflag, hstrOK⟩ := hc
      have hsl : listSlice ((r.data.drop p).take rb) cur 4 =
          some ((((r.data.drop p).take rb).drop cur).take 4) :=
        listSlice_some _ _ _ (by rw [raw_length r.data p rb hlen]; omega)
      have hb4 : (((r.data.drop p).take rb).drop cur).take 4 =
          (r.data.drop (p + cur)).take 4 := raw_take_sub r.data p rb cur 4 (by omega)
      have hfile : fileGetRangedString r.data
          (fourByteInt ((((r.data.drop p).take rb).drop cur).take 4)) =
          .ok ((r.data.drop (fourByteInt ((r.data.drop (p + cur)).take 4) + 1)).take
            (r.data.getD (fourByteInt ((r.data.drop (p + cur)).take 4)) 0)) := by
        rw [hb4]
        exact fileGetRangedString_ok _ _ hstrOK
      have hms : memStringColumn r p (some cur) =
          some ((r.data.drop (fourByteInt ((r.data.drop (p + cur)).take 4) + 1)).take
            (r.data.getD (fourByteInt ((r.data.drop (p + cur)).take 4)) 0)) := by
        rw [memStringColumn, getRangedStringE_ok r (p + cur) (by omega) hstrOK]
      rw [fpc_step_Country _ _ rest c h8 hflag cur _ _ _ hsl hfile]
      rw [show ({ memViewWith r p idx with
            country := some ((r.data.drop (fourByteInt ((r.data.drop (p + cur)).take 4) + 1)).take
              (r.data.getD (fourByteInt ((r.data.drop (p + cur)).take 4)) 0)) }) =
          memViewWith r p { idx with country := some cur } from by
        rw [mvw_country r p cur idx, hms]]
      simp only [Columns.build, h8, insertCol_country, hw]
      exact ih (cur + 4) { idx with country := some cur }
        (by simpa only [h8, nw_Country, Option.getD_some] using hrest)
    by_cases h9 : c.name = nameCity
    · simp only [columnOK, h9, nw_City, isStr_City, if_true] at hc
      simp only [Bool.and_eq_true, decide_eq_true_eq] at hc
      obtain ⟨⟨hw, hcur⟩, hflag, hstrOK⟩ := hc
      have hsl : listSlice ((r.data.drop p).take rb) cur 4 =
          some ((((r.data.drop p).take rb).drop cur).take 4) :=
        listSlice_some _ _ _ (by rw [raw_length r.data p rb hlen]; omega)
      have hb4 : (((r.data.drop p).take rb).drop cur).take 4 =
          (r.data.drop (p + cur)).take 4 := raw_take_sub r.data p rb cur 4 (by omega)
      have hfile : fileGetRangedString r.data
          (fourByteInt ((((r.data.drop p).take rb).drop cur).take 4)) =
          .ok ((r.data.drop (fourByteInt ((r.data.drop (p + cur)).take 4) + 1)).take
            (r.data.getD (fourByteInt ((r.data.drop (p + cur)).take 4)) 0)) := by
        rw [hb4]
        exact fileGetRangedString_ok _ _ hstrOK
      have hms : memStringColumn r p (some cur) =
          some ((r.data.drop (fourByteInt ((r.data.drop (p + cur)).take 4) + 1)).take
            (r.data.getD (fourByteInt ((r.data.drop (p + cur)).take 4)) 0)) := by
        rw [memStringColumn, getRangedStringE_ok r (p + cur) (by omega) hstrOK]
      rw [fpc_step_City _ _ rest c h9 hflag cur _ _ _ hsl hfile]
      rw [show ({ memViewWith r p idx with
            city := some ((r.data.drop (fourByteInt ((r.data.drop (p + cur)).take 4) + 1)).take
              (r.data.getD (fourByteInt ((r.data.drop (p + cur)).take 4)) 0)) }) =
          memViewWith r p { idx with city := some cur } from by
        rw [mvw_city r p cur idx, hms]]
      simp only [Columns.build, h9, insertCol_city, hw]
      exact ih (cur + 4) { idx with city := some cur }
        (by simpa only [h9, nw_City, Option.getD_some] using hrest)
    by_cases h10 : c.name = nameRegion
    · simp only [columnOK, h10, nw_Region, isStr_Region, if_true] at hc
      simp only [Bool.and_eq_true, decide_eq_true_eq] at hc
      obtain ⟨⟨hw, hcur⟩, hflag, hstrOK⟩ := hc
      have hsl : listSlice ((r.data.drop p).take rb) cur 4 =
          some ((((r.data.drop p).take rb).drop cur).take 4) :=
        listSlice_some _ _ _ (by rw [raw_length r.data p rb hlen]; omega)
      have hb4 : (((r.data.drop p).take rb).drop cur).take 4 =
          (r.data.drop (p + cur)).take 4 := raw_take_sub r.data p rb cur 4 (by omega)
      have hfile : fileGetRangedString r.data
          (fourByteInt ((((r.data.drop p).take rb).drop cur).take 4)) =
          .ok ((r.data.drop (fourByteInt ((r.data.drop (p + cur)).take 4) + 1)).take
            (r.data.getD (fourByteInt ((r.data.drop (p + cur)).take 4)) 0)) := by
        rw [hb4]
        exact fileGetRangedString_ok _ _ hstrOK
      have hms : memStringColumn r p (some cur) =
          some ((r.data.drop (fourByteInt ((r.data.drop (p + cur)).take 4) + 1)).take
            (r.data.getD (fourByteInt ((r.data.drop (p + cur)).take 4)) 0)) := by
        rw [memStringColumn, getRangedStringE_ok r (p + cur) (by omega) hstrOK]
      rw [fpc_step_Region _ _ rest c h10 hflag cur _ _ _ hsl hfile]
      rw [show ({ memViewWith r p idx with
            region := some ((r.data.drop (fourByteInt ((r.data.drop (p + cur)).take 4) + 1)).take
              (r.data.getD (fourByteInt ((r.data.drop (p + cur)).take 4)) 0)) }) =
          memViewWith r p { idx with region := some cur } from by
        rw [mvw_region r p cur idx, hms]]
      simp only [Columns.build, h10, insertCol_region, hw]
      exact ih (cur + 4) { idx with region := some cur }
        (by simpa only [h10, nw_Region, Option.getD_some] using hrest)
    by_cases h11 : c.name = nameISP
    · simp only [columnOK, h11, nw_ISP, isStr_ISP, if_true] at hc
      simp only [Bool.and_eq_true, decide_eq_true_eq] at hc
      obtain ⟨⟨hw, hcur⟩, hflag, hstrOK⟩ := hc
      have hsl : listSlice ((r.data.drop p).take rb) cur 4 =
          some ((((r.data.drop p).take rb).drop cur).take 4) :=
        listSlice_some _ _ _ (by rw [raw_length r.data p rb hlen]; omega)
      have hb4 : (((r.data.drop p).take rb).drop cur).take 4 =
          (r.data.drop (p + cur)).take 4 := raw_take_sub r.data p rb cur 4 (by omega)
      have hfile : fileGetRangedString r.data
          (fourByteInt ((((r.data.drop p).take rb).drop cur).take 4)) =
          .ok ((r.data.drop (fourByteInt ((r.data.drop (p + cur)).take 4) + 1)).take
            (r.data.getD (fourByteInt ((r.data.drop (p + cur)).take 4)) 0)) := by
        rw [hb4]
        exact fileGetRangedString_ok _ _ hstrOK
      have hms : memStringColumn r p (some cur) =
          some ((r.data.drop (fourByteInt ((r.data.drop (p + cur)).take 4) + 1)).take
            (r.data.getD (fourByteInt ((r.data.drop (p + cur)).take 4)) 0)) := by
        rw [memStringColumn, getRangedStringE_ok r (p + cur) (by omega) hstrOK]
      rw [fpc_step_ISP _ _ rest c h11 hflag cur _ _ _ hsl hfile]
      rw [show ({ memViewWith r p idx with
            isp := some ((r.data.drop (fourByteInt ((r.data.drop (p + cur)).take 4) + 1)).take
              (r.data.getD (fourByteInt ((r.data.drop (p + cur)).take 4)) 0)) }) =
          memViewWith r p { idx with isp := some cur } from by
        rw [mvw_isp r p cur idx, hms]]
      simp only [Columns.build, h11, insertCol_isp, hw]
      exact ih (cur + 4) { idx with isp := some cur }
        (by simpa only [h11, nw_ISP, Option.getD_some] using hrest)
    by_cases h12 : c.name = nameOrganization
    · simp only [columnOK, h12, nw_Organization, isStr_Organization, if_true] at hc
      simp only [Bool.and_eq_true, decide_eq_true_eq] at hc
      obtain ⟨⟨hw, hcur⟩, hflag, hstrOK⟩ := hc
      have hsl : listSlice ((r.data.drop p).take rb) cur 4 =
          some ((((r.data.drop p).take rb).drop cur).take 4) :=
        listSlice_some _ _ _ (by rw [raw_length r.data p rb hlen]; omega)
      have hb4 : (((r.data.drop p).take rb).drop cur).take 4 =
          (r.data.drop (p + cur)).take 4 := raw_take_sub r.data p rb cur 4 (by omega)
      have hfile : fileGetRangedString r.data
          (fourByteInt ((((r.data.drop p).take rb).drop cur).take 4)) =
          .ok ((r.data.drop (fourByteInt ((r.data.drop (p + cur)).take 4) + 1)).take
            (r.data.getD (fourByteInt ((r.data.drop (p + cur)).take 4)) 0)) := by
        rw [hb4]
        exact fileGetRangedString_ok _ _ hstrOK
      have hms : memStringColumn r p (some cur) =
          some ((r.data.drop (fourByteInt ((r.data.drop (p + cur)).take 4) + 1)).take
            (r.data.getD (fourByteInt ((r.data.drop (p + cur)).take 4)) 0)) := by
        rw [memStringColumn, getRangedStringE_ok r (p + cur) (by omega) hstrOK]
      rw [fpc_step_Organization _ _ rest c h12 hflag cur _ _ _ hsl hfile]
      rw [show ({ memViewWith r p idx with
            organization := some ((r.data.drop (fourByteInt ((r.data.drop (p + cur)).take 4) + 1)).take
              (r.data.getD (fourByteInt ((r.data.drop (p + cur)).take 4)) 0)) }) =
          memViewWith r p { idx with organization := some cur } from by
        rw [mvw_organization r p cur idx, hms]]
      simp only [Columns.build, h12, insertCol_organization, hw]
      exact ih (cur + 4) { idx with organization := some cur }
        (by simpa only [h12, nw_Organization, Option.getD_some] using hrest)
    by_cases h13 : c.name = nameTimezone
    · simp only [columnOK, h13, nw_Timezone, isStr_Timezone, if_true] at hc
      simp only [Bool.and_eq_true, decide_eq_true_eq] at hc
      obtain ⟨⟨hw, hcur⟩, hflag, hstrOK⟩ := hc
      have hsl : listSlice ((r.data.drop p).take rb) cur 4 =
          some ((((r.data.drop p).take rb).drop cur).take 4) :=
        listSlice_some _ _ _ (by rw [raw_length r.data p rb hlen]; omega)
      have hb4 : (((r.data.drop p).take rb).drop cur).take 4 =
          (r.data.drop (p + cur)).take 4 := raw_take_sub r.data p rb cur 4 (by omega)
      have hfile : fileGetRangedString r.data
          (fourByteInt ((((r.data.drop p).take rb).drop cur).take 4)) =
          .ok ((r.data.drop (fourByteInt ((r.data.drop (p + cur)).take 4) + 1)).take
            (r.data.getD (fourByteInt ((r.data.drop (p + cur)).take 4)) 0)) := by
        rw [hb4]
        exact fileGetRangedString_ok _ _ hstrOK
      have hms : memStringColumn r p (some cur) =
          some ((r.data.drop (fourByteInt ((r.data.drop (p + cur)).take 4) + 1)).take
            (r.data.getD (fourByteInt ((r.data.drop (p + cur)).take 4)) 0)) := by
        rw [memStringColumn, getRangedStringE_ok r (p + cur) (by omega) hstrOK]
      rw [fpc_step_Timezone _ _ rest c h13 hflag cur _ _ _ hsl hfile]
      rw [show ({ memViewWith r p idx with
            timezone := some ((r.data.drop (fourByteInt ((r.data.drop (p + cur)).take 4) + 1)).take
              (r.data.getD (fourByteInt ((r.data.drop (p + cur)).take 4)) 0)) }) =
          memViewWith r p { idx with timezone := some cur } from by
        rw [mvw_timezone r p cur idx, hms]]
      simp only [Columns.build, h13, insertCol_timezone, hw]
      exact ih (cur + 4) { idx with timezone := some cur }
        (by simpa only [h13, nw_Timezone, Option.getD_some] using hrest)
    have hnone : nameWidth c.name = none := by
      simp [nameWidth, h1, h2, h3, h4, h5, h6, h7, h8, h9, h10, h11, h12, h13]
    rw [columnOK, hnone] at hc
    exact absurd hc (by simp)

theorem fileParseColumns_build_of (r : MemReader) (p rb : Nat)
    (hlen : p + rb ≤ r.data.length) (cols : List Column) (cur : Nat)
    (idx : Columns) (v : RecordView)
    (hOK : columnsOK r.data p rb cols cur = true)
    (hv : v = memViewWith r p idx) :
    fileParseColumns r.data ((r.data.drop p).take rb) cols cur v =
      .ok (memViewWith r p (Columns.build cols cur idx)) := by
  rw [hv]
  exact fileParseColumns_build r p rb hlen cols cur idx hOK

/-- Under the record-decode parity conditions, the streaming
`Record::parse` on the raw leaf bytes returns exactly the resident
record view at that leaf. -/
theorem fileRecordParse_memView (r : MemReader) (f : FReader)
    (hd : f.data = r.data) (hb : f.binaryData = r.binaryData) (p : Nat)
    (hOK : recordDecodeOK r f.recordBytes f.columns p = true) :
    fileRecordParse f ((r.data.drop p).take f.recordBytes) =
      .ok (memViewWith r p (Columns.new r.binaryData f.columns)) := by
  simp only [recordDecodeOK, Bool.and_eq_true, decide_eq_true_eq] at hOK
  obtain ⟨⟨hlen, hcur⟩, hcols⟩ := hOK
  have hraw : ((r.data.drop p).take f.recordBytes).length = f.recordBytes :=
    raw_length r.data p f.recordBytes hlen
  rw [fileRecordParse, hd, hb]
  by_cases hbd : r.binaryData = true
  · rw [if_pos hbd] at hcur
    rw [if_pos hbd] at hcols
    rw [if_neg (by intro hcon; rw [hraw] at hcon; omega)]
    simp only [hbd, reduceIte]
    rw [if_neg (by rw [hraw]; omega)]
    rw [raw_getD r.data p f.recordBytes 0 (by omega),
      raw_getD r.data p f.recordBytes 1 (by omega),
      raw_getD r.data p f.recordBytes 2 (by omega)]
    simp only [Columns.new, hbd, reduceIte]
    exact fileParseColumns_build_of r p f.recordBytes hlen f.columns _ {} _ hcols (by
      simp [memViewWith, hbd, applyBools, memStringColumn, memIntColumn, memFloatColumn,
        memSmallIntColumn])
  · have hbf : r.binaryData = false := by
      cases hrb : r.binaryData
      · rfl
      · exact absurd hrb hbd
    rw [if_neg hbd] at hcur
    rw [if_neg hbd] at hcols
    rw [if_neg (fun hcon => hbd hcon.1)]
    simp only [hbf, Bool.false_eq_true, reduceIte, if_false]
    rw [if_neg (by rw [hraw]; omega)]
    rw [raw_getD r.data p f.recordBytes 0 (by omega)]
    simp only [Columns.new, hbf, reduceIte]
    exact fileParseColumns_build_of r p f.recordBytes hlen f.columns _ {} _ hcols (by
      simp [memViewWith, hbf, memStringColumn, memIntColumn, memFloatColumn,
        memSmallIntColumn])

theorem parseFileHeader_treeStart_pos (h : List Nat) (fh : FileHeader)
    (hp : parseFileHeader h = .ok fh) : 0 < fh.treeStart := by
  simp only [parseFileHeader] at hp
  split at hp
  · exact absurd hp (by simp)
  split at hp
  · exact absurd hp (by simp)
  split at hp
  · exact absurd hp (by simp)
  rename_i ts hts
  split at hp
  · exact absurd hp (by simp)
  rename_i hts0
  split at hp
  · exact absurd hp (by simp)
  split at hp
  · exact absurd hp (by simp)
  split at hp
  · exact absurd hp (by simp)
  split at hp
  · exact absurd hp (by simp)
  injection hp with hfh
  subst hfh
  exact Nat.pos_of_ne_zero hts0

theorem memParseTreeHeader_ok_inv (ts : Nat) (t : List Nat) (te : Nat)
    (h : memParseTreeHeader ts t = .ok te) :
    hasFlag (t.getD 0 0) treeData = true ∧ 5 ≤ t.length ∧
    0 < fourByteInt ((t.drop 1).take 4) ∧ te = ts + fourByteInt ((t.drop 1).take 4) := by
  simp only [memParseTreeHeader] at h
  split at h
  · exact absurd h (by simp)
  rename_i b0 rest
  split at h
  · exact absurd h (by simp)
  rename_i hfl
  split at h
  · exact absurd h (by simp)
  rename_i hlen5
  split at h
  · exact absurd h (by simp)
  rename_i htot
  injection h with hte
  exact ⟨not_not.mp hfl, by omega, by omega, hte.symm⟩

/-- When both facades open the same bytes successfully, the two readers
agree on every stored component; additionally the tree bounds are
nontrivial (`FileHeader::parse` rejects `tree_start = 0` and
`TreeHeader::parse` rejects an empty tree block). -/
theorem fromBytes_agree (d : List Nat) (r : MemReader) (f : FReader)
    (hm : memFromBytes d = .ok r) (hf : fileFromBytes d = .ok f) :
    f.data = r.data ∧ r.data = d ∧ f.binaryData = r.binaryData ∧
    f.isV6 = r.isV6 ∧ f.isBlacklist = r.isBlacklist ∧
    f.treeStart = r.treeBlockStart ∧ f.treeEnd = r.treeBlockEnd ∧
    r.columns = Columns.new r.binaryData f.columns ∧
    0 < r.treeBlockStart ∧ r.treeBlockStart < r.treeBlockEnd := by
  simp only [memFromBytes] at hm
  simp only [fileFromBytes] at hf
  split at hm
  · exact absurd hm (by simp)
  rename_i hlen11
  rw [if_neg hlen11] at hf
  split at hm
  · exact absurd hm (by simp)
  rename_i fh hfh
  rw [hfh] at hf
  dsimp only at hf
  split at hm
  · exact absurd hm (by simp)
  rename_i hclen
  rw [if_neg (by simp only [List.length_drop] at hclen; omega)] at hf
  split at hm
  · exact absurd hm (by simp)
  rename_i cols hcols
  rw [hcols] at hf
  dsimp only at hf
  have hdd : (d.drop 11).drop fh.columnsBytesLength =
      d.drop (11 + fh.columnsBytesLength) := by
    rw [List.drop_drop]
  rw [hdd] at hm
  cases hmt : memParseTreeHeader fh.treeStart (d.drop (11 + fh.columnsBytesLength)) with
  | error e =>
    rw [hmt] at hm
    exact absurd hm (by simp)
  | ok treeEnd =>
    rw [hmt] at hm
    dsimp only at hm
    obtain ⟨hfl, hlen5, htot, hte⟩ := memParseTreeHeader_ok_inv _ _ _ hmt
    have hlend : (d.drop (11 + fh.columnsBytesLength)).length =
        d.length - (11 + fh.columnsBytesLength) := by simp
    rw [if_neg (show ¬ d.length < 11 + fh.columnsBytesLength + 5 by omega)] at hf
    have hth0 : ((d.drop (11 + fh.columnsBytesLength)).take 5).getD 0 0 =
        (d.drop (11 + fh.columnsBytesLength)).getD 0 0 := by
      rw [List.getD_eq_getElem?_getD, List.getElem?_take_of_lt (by norm_num),
        ← List.getD_eq_getElem?_getD]
    have hth4 : (((d.drop (11 + fh.columnsBytesLength)).take 5).drop 1).take 4 =
        ((d.drop (11 + fh.columnsBytesLength)).drop 1).take 4 := by
      rw [List.drop_take]
      simp [List.take_take]
    rw [hth0, hth4] at hf
    rw [if_neg (not_not_intro hfl)] at hf
    rw [if_neg (by omega)] at hf
    injection hm with hr
    subst hr
    injection hf with hfeq
    subst hfeq
    refine ⟨rfl, rfl, rfl, rfl, rfl, rfl, hte.symm, rfl,
      parseFileHeader_treeStart_pos _ _ hfh, ?_⟩
    show fh.treeStart < treeEnd
    omega

theorem nextNode_eq (bit : Bool) (node : List Nat) (ts te : Nat) :
    nextNode bit node ts te =
      if childValue bit node < ts then .missing
      else if te ≤ childValue bit node then .record (childValue bit node)
      else .nextNode (childValue bit node) := rfl

theorem nextNode_missing_lt (bit : Bool) (node : List Nat) (ts te : Nat)
    (h : nextNode bit node ts te = .missing) : childValue bit node < ts := by
  rw [nextNode_eq] at h
  split at h
  · rename_i hc
    exact hc
  · split at h
    · exact absurd h (by simp)
    · exact absurd h (by simp)

theorem nextNode_nextNode_inv (bit : Bool) (node : List Nat) (ts te : Nat) (v : Nat)
    (h : nextNode bit node ts te = .nextNode v) :
    ts ≤ childValue bit node ∧ childValue bit node < te ∧ childValue bit node = v := by
  rw [nextNode_eq] at h
  split at h
  · exact absurd h (by simp)
  · rename_i hc1
    split at h
    · exact absurd h (by simp)
    · rename_i hc2
      injection h with hv
      exact ⟨Nat.le_of_not_lt hc1, Nat.lt_of_not_le hc2, hv⟩

theorem nextNode_record_inv (bit : Bool) (node : List Nat) (ts te : Nat) (p : Nat)
    (h : nextNode bit node ts te = .record p) :
    ts ≤ childValue bit node ∧ te ≤ childValue bit node ∧ childValue bit node = p := by
  rw [nextNode_eq] at h
  split at h
  · exact absurd h (by simp)
  · rename_i hc1
    split at h
    · rename_i hc2
      injection h with hv
      exact ⟨Nat.le_of_not_lt hc1, hc2, hv⟩
    · exact absurd h (by simp)

/-- Lockstep simulation: along a trajectory whose run-time side
conditions hold (`parityWalkOK`), the streaming walker of
`FileReader::fetch` and the resident walker of `MemoryReader::fetch`
either fail with the same error or deliver the same record. -/
theorem walkSim (r : MemReader) (f : FReader)
    (hd : f.data = r.data) (hbd : f.binaryData = r.binaryData)
    (hbl : f.isBlacklist = r.isBlacklist)
    (hte : f.treeEnd = r.treeBlockEnd)
    (hcols : r.columns = Columns.new r.binaryData f.columns)
    (hts0 : 0 < r.treeBlockStart) (htlt : r.treeBlockStart < r.treeBlockEnd) :
    ∀ (fuel : Nat) (sM : MState) (sF : FState), WalkRel sM sF →
      parityWalkOK r f.recordBytes f.columns fuel sM = true →
      (∃ e, memWalk r fuel sM = .error e ∧ fileWalk f fuel sF = .error e) ∨
      (∃ p, memWalk r fuel sM = .ok p ∧ fileWalk f fuel sF = .ok (memView r p)) := by
  intro fuel
  induction fuel with
  | zero =>
    intro sM sF _ _
    exact .inl ⟨.eid10, rfl, rfl⟩
  | succ n ih =>
    intro sM sF hrel hok
    obtain ⟨hpos, hfpos, hlen, hbits, hprevAg, hlenB, hlenP, hbB⟩ := hrel
    simp only [parityWalkOK, Bool.and_eq_true, decide_eq_true_eq] at hok
    obtain ⟨hp128, hok⟩ := hok
    by_cases hlp : sM.addr.len ≤ sM.pos
    · refine .inl ⟨.eid9, ?_, ?_⟩
      · simp only [memWalk, if_neg (show ¬ 128 ≤ sM.pos from by omega), if_pos hlp]
      · simp only [fileWalk,
          if_pos (show sF.bin.length ≤ sF.pos from by rw [hlen, hpos]; exact hlp)]
    · rw [if_neg hlp] at hok
      cases hsl : listSlice r.data sM.node 8 with
      | none =>
        rw [hsl] at hok
        exact absurd hok (by simp)
      | some nodeBytes =>
        simp only [hsl] at hok
        have hbit : sF.bin.getD sM.pos false = sM.addr.position sM.pos :=
          hbits sM.pos (by omega)
        cases hnn : nextNode (sM.addr.position sM.pos) nodeBytes r.treeBlockStart
            r.treeBlockEnd with
        | missing =>
          simp only [hnn, Bool.and_eq_true, decide_eq_true_eq] at hok
          obtain ⟨hcv0, hok2⟩ := hok
          by_cases hbl' : r.isBlacklist = true
          · refine .inl ⟨.eid10, ?_, ?_⟩
            · simp only [memWalk, if_neg (show ¬ 128 ≤ sM.pos from by omega),
                if_neg hlp, hsl, hnn, if_pos hbl']
            · simp only [fileWalk,
                if_neg (show ¬ sF.bin.length ≤ sM.pos from by rw [hlen]; omega),
                hd, hfpos, hpos, hsl, hbit, hcv0, hbl, hbl', Bool.not_true,
                Bool.false_and, Bool.false_eq_true, if_false,
                if_pos (show (0 : Nat) < f.treeEnd from by rw [hte]; omega),
                eq_self_iff_true, if_true, if_pos (show (0 : Nat) = 0 from rfl)]
          · have hblf : r.isBlacklist = false := by
              cases hx : r.isBlacklist
              · rfl
              · exact absurd hx hbl'
            rw [if_neg hbl'] at hok2
            cases htb : sM.addr.tryBacktrack sM.pos with
            | none =>
              rw [htb] at hok2
              exact absurd hok2 (by simp)
            | some ka =>
              obtain ⟨k, a'⟩ := ka
              simp only [htb, Bool.and_eq_true] at hok2
              obtain ⟨hk0, hoknext⟩ := hok2
              have hguard : ¬ (sM.addr.len = 128 ∧ k = 0) := by
                intro ⟨hg1, hg2⟩
                simp [hg1, hg2] at hk0
              have hfp : sM.addr.findPreviousOne sM.pos = some k ∧
                  a' = sM.addr.setBranch k := by
                simp only [AddressBits.tryBacktrack] at htb
                cases hh : sM.addr.findPreviousOne sM.pos with
                | none =>
                  rw [hh] at htb
                  exact absurd htb (by simp)
                | some k2 =>
                  rw [hh] at htb
                  simp only [Option.some.injEq, Prod.mk.injEq] at htb
                  obtain ⟨h1, h2⟩ := htb
                  subst h1
                  exact ⟨rfl, h2.symm⟩
              obtain ⟨hfp1, ha'⟩ := hfp
              subst ha'
              obtain ⟨hkle, hkpos, hkmax⟩ :=
                findPreviousOne_some_spec sM.addr sM.pos k (by omega) hlenB hbB hfp1
              have hkltlen : k < sM.addr.len := by omega
              have hfs : findSetDown sF.bin sM.pos = some k := by
                refine findSetDown_eq_some sF.bin sM.pos k hkle ?_ ?_
                · rw [hbits k (by omega)]
                  exact hkpos
                · intro j hj1 hj2
                  rw [hbits j (by omega)]
                  exact hkmax j hj1 hj2
              have hpk : (if k = sM.pos then some sM.node else sF.prev k) =
                  some (if k = sM.pos then sM.node else sM.prev k) := by
                by_cases hkp : k = sM.pos
                · rw [if_pos hkp, if_pos hkp]
                · rw [if_neg hkp, if_neg hkp]
                  exact hprevAg k (by omega)
              have hrel' : WalkRel
                  ⟨k, if k = sM.pos then sM.node else sM.prev k, sM.addr.setBranch k,
                    fun i => if i = sM.pos then sM.node else sM.prev i⟩
                  ⟨k, if k = sM.pos then sM.node else sM.prev k, fallbackBits sF.bin k,
                    fun i => if i = sM.pos then some sM.node else sF.prev i⟩ := by
                refine ⟨rfl, rfl, ?_, ?_, ?_, ?_, ?_, ?_⟩
                · show (fallbackBits sF.bin k).length = (sM.addr.setBranch k).len
                  rw [fallbackBits_length, hlen, setBranch_len]
                · intro i hi
                  have hi' : i < sM.addr.len := hi
                  rw [fallbackBits_getD sF.bin k i (by rw [hlen]; omega)]
                  rw [setBranch_position sM.addr k i hkltlen hlenB hguard hi']
                  by_cases h1 : i = k
                  · subst h1
                    rw [if_pos rfl, if_neg (lt_irrefl i), if_pos rfl]
                  · by_cases h2 : k < i
                    · rw [if_neg h1, if_pos h2, if_neg (by omega), if_neg h1]
                    · have h3 : i < k := by omega
                      rw [if_neg h1, if_neg h2, if_pos h3]
                      exact hbits i hi'
                · intro i hi
                  have hik : i < k := hi
                  dsimp only
                  rw [if_neg (show ¬ i = sM.pos from by omega),
                    if_neg (show ¬ i = sM.pos from by omega)]
                  exact hprevAg i (by omega)
                · rw [setBranch_len]
                  exact hlenB
                · rw [setBranch_len]
                  exact hlenP
                · rw [setBranch_len]
                  exact setBranch_bits_lt sM.addr k hkltlen hbB
              rcases ih _ _ hrel' hoknext with ⟨e, hm1, hf1⟩ | ⟨p, hm1, hf1⟩
              · refine .inl ⟨e, ?_, ?_⟩
                · simp only [memWalk, if_neg (show ¬ 128 ≤ sM.pos from by omega),
                    if_neg hlp, hsl, hnn, if_neg hbl', htb]
                  exact hm1
                · simp only [fileWalk,
                    if_neg (show ¬ sF.bin.length ≤ sM.pos from by rw [hlen]; omega),
                    hd, hfpos, hpos, hsl, hbit, hcv0, hbl, hblf, Bool.not_false,
                    Bool.true_and, decide_eq_true_eq, eq_self_iff_true, if_true, hfs, hpk]
                  exact hf1
              · refine .inr ⟨p, ?_, ?_⟩
                · simp only [memWalk, if_neg (show ¬ 128 ≤ sM.pos from by omega),
                    if_neg hlp, hsl, hnn, if_neg hbl', htb]
                  exact hm1
                · simp only [fileWalk,
                    if_neg (show ¬ sF.bin.length ≤ sM.pos from by rw [hlen]; omega),
                    hd, hfpos, hpos, hsl, hbit, hcv0, hbl, hblf, Bool.not_false,
                    Bool.true_and, decide_eq_true_eq, eq_self_iff_true, if_true, hfs, hpk]
                  exact hf1
        | nextNode v =>
          simp only [hnn] at hok
          obtain ⟨hle1, hlt1, hveq⟩ :=
            nextNode_nextNode_inv _ _ _ _ _ hnn
          have hrel' : WalkRel
              ⟨sM.pos + 1, v, sM.addr, fun i => if i = sM.pos then sM.node else sM.prev i⟩
              ⟨sM.pos + 1, v, sF.bin, fun i => if i = sM.pos then some sM.node else sF.prev i⟩ := by
            refine ⟨rfl, rfl, hlen, hbits, ?_, hlenB, hlenP, hbB⟩
            intro i hi
            have hik : i < sM.pos + 1 := hi
            dsimp only
            by_cases hip : i = sM.pos
            · rw [if_pos hip, if_pos hip]
            · rw [if_neg hip, if_neg hip]
              exact hprevAg i (by omega)
          rcases ih _ _ hrel' hok with ⟨e, hm1, hf1⟩ | ⟨p, hm1, hf1⟩
          · refine .inl ⟨e, ?_, ?_⟩
            · simp only [memWalk, if_neg (show ¬ 128 ≤ sM.pos from by omega),
                if_neg hlp, hsl, hnn]
              exact hm1
            · simp only [fileWalk,
                if_neg (show ¬ sF.bin.length ≤ sM.pos from by rw [hlen]; omega),
                hd, hfpos, hpos, hsl, hbit, hveq,
                if_neg (show ¬ ((!f.isBlacklist && decide (v = 0)) = true) from by
                  intro hcon
                  simp only [Bool.and_eq_true, decide_eq_true_eq] at hcon
                  omega),
                if_pos (show v < f.treeEnd from by rw [hte]; omega),
                if_neg (show ¬ v = 0 from by omega)]
              exact hf1
          · refine .inr ⟨p, ?_, ?_⟩
            · simp only [memWalk, if_neg (show ¬ 128 ≤ sM.pos from by omega),
                if_neg hlp, hsl, hnn]
              exact hm1
            · simp only [fileWalk,
                if_neg (show ¬ sF.bin.length ≤ sM.pos from by rw [hlen]; omega),
                hd, hfpos, hpos, hsl, hbit, hveq,
                if_neg (show ¬ ((!f.isBlacklist && decide (v = 0)) = true) from by
                  intro hcon
                  simp only [Bool.and_eq_true, decide_eq_true_eq] at hcon
                  omega),
                if_pos (show v < f.treeEnd from by rw [hte]; omega),
                if_neg (show ¬ v = 0 from by omega)]
              exact hf1
        | record p =>
          simp only [hnn] at hok
          obtain ⟨hcp0, hcp1, hcp2⟩ := nextNode_record_inv _ _ _ _ _ hnn
          have hplen : p + f.recordBytes ≤ r.data.length := by
            have hx := hok
            simp only [recordDecodeOK, Bool.and_eq_true, decide_eq_true_eq] at hx
            exact hx.1.1
          refine .inr ⟨p, ?_, ?_⟩
          · simp only [memWalk, if_neg (show ¬ 128 ≤ sM.pos from by omega),
              if_neg hlp, hsl, hnn]
          · simp only [fileWalk,
              if_neg (show ¬ sF.bin.length ≤ sM.pos from by rw [hlen]; omega),
              hd, hfpos, hpos, hsl, hbit, hcp2,
              if_neg (show ¬ ((!f.isBlacklist && decide (p = 0)) = true) from by
                intro hcon
                simp only [Bool.and_eq_true, decide_eq_true_eq] at hcon
                omega),
              if_neg (show ¬ p < f.treeEnd from by rw [hte]; omega),
              listSlice_some r.data p f.recordBytes hplen]
            rw [fileRecordParse_memView r f hd hbd p hok]
            rw [memView, hcols]

/-- **C1, counterexample.**  `dbHole` is accepted by both constructors,
yet the two facades return different records for 128.0.0.0: the node at
offset 48 stores its absent 0-child as the nonzero pointer 7 (below
`tree_start`), which the resident walker treats as a hole (backtracking
to the record at 64, fraud score 7) while the streaming walker follows
it as an internal node into the header bytes and lands on the record at
66 (fraud score 9).  Both fetches succeed and the records disagree on
`fraud_score`, refuting the unconditional parity claim. -/
theorem C1_counterexample :
    memFromBytes dbHole = .ok rHole ∧
    fileFromBytes dbHole = .ok fHole ∧
    memFetch rHole ipTop = .ok 64 ∧
    (memView rHole 64).fraudScore0 = some 7 ∧
    fileFetch fHole ipTop =
      .ok { connectionType := "Unknown", abuseVelocity := "none",
            fraudScore0 := some 9 } ∧
    fileFetch fHole ipTop ≠ .ok (memView rHole 64) := by
  refine ⟨by decide, by decide, by decide, by decide, by decide, by decide⟩

/-- **C1 (amended).**  Streaming/resident parity holds for readers
opened from the same bytes whenever the resident walker's trajectory
satisfies the run-time parity conditions (`parityWalkOK`): every node
read is in bounds, every absent child is stored as pointer 0 (the two
facades classify a nonzero pointer below `tree_start` differently),
every backtrack finds a set bit away from the 128-bit `set_branch`
overflow, and a reached leaf decodes cleanly.  Then the two fetches
fail with the same error or return the same record view. -/
theorem C1_parity (d : List Nat) (r : MemReader) (f : FReader) (ip : IpAddress)
    (hm : memFromBytes d = .ok r) (hf : fileFromBytes d = .ok f)
    (hbits : ip.bits < 2 ^ ip.len)
    (hOK : parityWalkOK r f.recordBytes f.columns 257 (initMState r ip) = true) :
    (∃ e, memFetch r ip = .error e ∧ fileFetch f ip = .error e) ∨
    (∃ p, memFetch r ip = .ok p ∧ fileFetch f ip = .ok (memView r p)) := by
  obtain ⟨hdd, hrd, hbd, hv6, hbl, hts, hteq, hcols, hts0, htlt⟩ :=
    fromBytes_agree d r f hm hf
  rw [memFetch, fileFetch, hv6]
  by_cases hc1 : (r.isV6 && !ip.isIpv6) = true
  · rw [if_pos hc1, if_pos hc1]
    exact .inl ⟨.wrongFam4, rfl, rfl⟩
  by_cases hc2 : (!r.isV6 && ip.isIpv6) = true
  · rw [if_neg hc1, if_neg hc1, if_pos hc2, if_pos hc2]
    exact .inl ⟨.wrongFam6, rfl, rfl⟩
  rw [if_neg hc1, if_neg hc1, if_neg hc2, if_neg hc2]
  refine walkSim r f hdd hbd hbl hteq hcols hts0 htlt 257
    (initMState r ip) (initFState f ip) ?_ hOK
  refine ⟨rfl, ?_, ?_, ?_, ?_, ?_, ?_, ?_⟩
  · show f.treeStart + 5 = r.treeBlockStart + 5
    rw [hts]
  · show (binaryRepresentation ip).length = (addressBitsOf ip).len
    rw [binaryRepresentation_length]
    rfl
  · intro i hi
    exact binaryRepresentation_getD ip i hi
  · intro i hi
    exact absurd hi (Nat.not_lt_zero i)
  · show ip.len ≤ 128
    cases h : ip.isIpv6 <;> simp [IpAddress.len, h]
  · show 0 < ip.len
    cases h : ip.isIpv6 <;> simp [IpAddress.len, h]
  · exact hbits

/-- **C1, witness**: the well-formed database `dbGood` and address
1.2.3.4 satisfy every hypothesis of the amended parity theorem. -/
theorem C1_parity_witness :
    memFromBytes dbGood = .ok rGood ∧ fileFromBytes dbGood = .ok fGood ∧
    ipLow.bits < 2 ^ ipLow.len ∧
    parityWalkOK rGood fGood.recordBytes fGood.columns 257
      (initMState rGood ipLow) = true ∧
    ((∃ e, memFetch rGood ipLow = .error e ∧ fileFetch fGood ipLow = .error e) ∨
     (∃ p, memFetch rGood ipLow = .ok p ∧
        fileFetch fGood ipLow = .ok (memView rGood p))) :=
  ⟨by decide, by decide, by decide, by decide,
   C1_parity dbGood rGood fGood ipLow (by decide) (by decide) (by decide) (by decide)⟩
